import Mathlib

/-!
Verification of the cuckoo-map core of `rust-cuckoomap`.

Shallow embedding of `src/bucket.rs` and `src/lib.rs`.  The crate declares
`mod util;` but `util.rs` is not part of the sources; the hashing scheme it
provides (`get_fai`, `get_alt_index`, `FaI::random_index`) is modelled from
the specification (spec §4.2) and clearly marked below.  All map-level
operations are translated directly from `src/lib.rs`; the bucket primitives
from `src/bucket.rs` (note that `lib.rs` calls them `set` / `reset` while
`bucket.rs` names them `insert` / `delete`; we keep the `bucket.rs` names).

Machine integers: indices are `usize`, modelled as `Nat` (all reductions in
the code are explicit `% len`, which we keep).  The one-byte fingerprint and
the one-byte value payload are modelled as `Nat` (the byte bound is imposed
in the statements where it matters).  Randomness (`rand::thread_rng` used
only to pick the eviction chain's start) is an explicit `Bool` parameter.
-/

/-- Value payload of a bucket: a fixed-size opaque payload
(`Value(pub u8)` / `[u8; VALUE_SIZE]` in the source), copied by value and
never interpreted by the engine; modelled as `Nat`. -/
abbrev Value := Nat

/-- FINGERPRINT_SIZE is 1 in `bucket.rs`; a fingerprint is one byte. -/
def FINGERPRINT_SIZE : Nat := 1

/-- The empty-slot sentinel byte, `EMPTY_FINGERPRINT = [100; 1]` in
`bucket.rs`. -/
def EMPTY_FINGERPRINT : Nat := 100

/-- One-byte fingerprint (`Fingerprint { data: [u8; 1] }`). -/
structure Fingerprint where
  data : Nat
deriving DecidableEq

/-- Checks if this is the empty Fingerprint (`Fingerprint::is_empty`). -/
def Fingerprint.is_empty (f : Fingerprint) : Bool :=
  f.data == EMPTY_FINGERPRINT

/-- Returns the empty Fingerprint (`Fingerprint::empty`). -/
def Fingerprint.empty : Fingerprint :=
  { data := EMPTY_FINGERPRINT }

/-- Attempts to create a Fingerprint from a byte; returns `none` when the
result would equal the empty Fingerprint (`Fingerprint::from_data`). -/
def Fingerprint.from_data (data : Nat) : Option Fingerprint :=
  let result : Fingerprint := { data := data }
  if result.is_empty then none else some result

/-- One storage slot (`Bucket { fingerprint, value }` in `bucket.rs`). -/
structure Bucket where
  fingerprint : Fingerprint
  value : Value
deriving DecidableEq

/-- A fresh empty bucket (`Bucket::new`). -/
def Bucket.new : Bucket :=
  { fingerprint := Fingerprint.empty, value := 0 }

/-- Inserts the fingerprint into the bucket if the bucket is empty or holds
the same fingerprint (`Bucket::insert` in `bucket.rs`; called `set` by
`lib.rs`).  Returns the updated bucket and the success flag. -/
def Bucket.insert (b : Bucket) (fp : Fingerprint) (v : Value) : Bucket × Bool :=
  if b.fingerprint.is_empty || b.fingerprint == fp then
    ({ fingerprint := fp, value := v }, true)
  else
    (b, false)

/-- Deletes the given fingerprint from the bucket when it matches
(`Bucket::delete` in `bucket.rs`; called `reset` by `lib.rs`).  The value is
not invalidated, exactly as in the source. -/
def Bucket.delete (b : Bucket) (fp : Fingerprint) : Bucket × Bool :=
  if b.fingerprint == fp then
    ({ fingerprint := Fingerprint.empty, value := b.value }, true)
  else
    (b, false)

/-- Empties the bucket (`Bucket::clear`, which does `*self = Self::new()`). -/
def Bucket.clear (_b : Bucket) : Bucket :=
  Bucket.new

/-- If insertion fails, we will retry this many times (`MAX_REBUCKET`). -/
def MAX_REBUCKET : Nat := 500

/-- Modelled from the spec: `util.rs` is declared by `lib.rs` (`mod util`)
but absent from the sources.  Per spec §4.2 the hashing scheme derives, for
a key, a triple of a non-sentinel fingerprint and two candidate indices
with `i2 = i1 XOR hash(fp)`; the `FaI` struct carries that triple. -/
structure FaI where
  fp : Fingerprint
  i1 : Nat
  i2 : Nat
deriving DecidableEq

/-- Modelled from the spec: `get_alt_index` of the missing `util.rs`.  Per
spec §4.2 the alternate index is `i XOR hash(fp)`, a pure function of the
fingerprint and a known index; the digest of the fingerprint bytes is
abstracted as a function `hash : Fingerprint → Nat`. -/
def get_alt_index (hash : Fingerprint → Nat) (fp : Fingerprint) (i : Nat) : Nat :=
  i ^^^ hash fp

/-- Modelled from the spec: `FaI::random_index` of the missing `util.rs`.
Per spec §4.2 a helper selects `i1` or `i2` uniformly at random as the
start of an eviction chain; the random draw is an explicit `Bool`. -/
def FaI.random_index (f : FaI) (r : Bool) : Nat :=
  if r then f.i2 else f.i1

/-- The cuckoo map (`CuckooMap { buckets, len }`); the phantom hasher type
parameter carries no data and is dropped. -/
structure CuckooMap where
  buckets : List Bucket
  len : Nat
deriving DecidableEq

/-- Doubling search for the next power of two: starting from `acc` (a power
of two), double until the target is reached; `fuel` bounds the recursion
(`fuel = n` suffices since `n < 2 ^ n`). -/
def nextPowAux (n : Nat) : Nat → Nat → Nat
  | 0, acc => acc
  | fuel + 1, acc => if n ≤ acc then acc else nextPowAux n fuel (2 * acc)

/-- Rust's `usize::next_power_of_two`: the smallest power of two greater
than or equal to the argument (1 for 0). -/
def nextPowerOfTwo (n : Nat) : Nat :=
  nextPowAux n n 1

/-- Constructs a cuckoo map with a given max capacity
(`CuckooMap::with_capacity`): `max(1, cap.next_power_of_two())` fresh
buckets and a zero counter. -/
def CuckooMap.with_capacity (cap : Nat) : CuckooMap :=
  { buckets := List.replicate (max 1 (nextPowerOfTwo cap)) Bucket.new,
    len := 0 }

/-- The default number of buckets (`DEFAULT_CAPACITY = (1 << 20) - 1`). -/
def DEFAULT_CAPACITY : Nat := (1 <<< 20) - 1

/-- Checks if a key (represented by its hash triple) is in the map
(`CuckooMap::get`): bucket `i1 % len` is tested first, then `i2 % len`. -/
def CuckooMap.get (m : CuckooMap) (f : FaI) : Option Value :=
  let len := m.buckets.length
  let b1 := m.buckets.getD (f.i1 % len) Bucket.new
  if b1.fingerprint == f.fp then some b1.value
  else
    let b2 := m.buckets.getD (f.i2 % len) Bucket.new
    if b2.fingerprint == f.fp then some b2.value
    else none

/-- Overwrites a bucket if the fingerprint matches or the bucket is empty
(`CuckooMap::put`): on success of `Bucket::insert` (`set`) the counter is
incremented — note this happens also on a same-fingerprint overwrite. -/
def CuckooMap.put (m : CuckooMap) (i : Nat) (fp : Fingerprint) (v : Value) :
    CuckooMap × Bool :=
  let len := m.buckets.length
  let pr := (m.buckets.getD (i % len) Bucket.new).insert fp v
  if pr.2 then
    ({ buckets := m.buckets.set (i % len) pr.1, len := m.len + 1 }, true)
  else
    (m, false)

/-- Removes the item with the given fingerprint from the bucket indexed by
`i` (`CuckooMap::remove`), decrementing the counter on success.  The
`usize` decrement is modelled by truncated `Nat` subtraction. -/
def CuckooMap.remove (m : CuckooMap) (fp : Fingerprint) (i : Nat) :
    CuckooMap × Bool :=
  let len := m.buckets.length
  let pr := (m.buckets.getD (i % len) Bucket.new).delete fp
  if pr.2 then
    ({ buckets := m.buckets.set (i % len) pr.1, len := m.len - 1 }, true)
  else
    (m, false)

/-- Result of `CuckooMap::insert`.  `ok = true` models `Ok(())`, `ok =
false` models `Err(NotEnoughSpace)`.  `dropped` and `steps` are ghost
observations of the run: the bucket permanently dropped on failure (the
`current_bucket` that goes out of scope at the `Err` return) and the number
of iterations the eviction loop performed; neither influences `map`/`ok`. -/
structure InsRes where
  map : CuckooMap
  ok : Bool
  dropped : Option Bucket
  steps : Nat
deriving DecidableEq

/-- The eviction loop of `CuckooMap::insert` (`for _ in 0..MAX_REBUCKET`),
as fuel recursion: kick the occupant of `i % len`, store the displaced
entry there, recompute the kicked entry's alternate index, and try to place
the kicked entry there via `put`; on success return `Ok`. -/
def CuckooMap.chain (hash : Fingerprint → Nat) :
    Nat → CuckooMap → Bucket → Nat → InsRes
  | 0, m, current, _ =>
      { map := m, ok := false, dropped := some current, steps := 0 }
  | fuel + 1, m, current, i =>
      let n := m.buckets.length
      let kicked := m.buckets.getD (i % n) Bucket.new
      let m1 : CuckooMap := { buckets := m.buckets.set (i % n) current, len := m.len }
      let j := get_alt_index hash kicked.fingerprint i
      let pr := m1.put j kicked.fingerprint kicked.value
      if pr.2 then
        { map := pr.1, ok := true, dropped := none, steps := 1 }
      else
        let r := CuckooMap.chain hash fuel pr.1 kicked j
        { map := r.map, ok := r.ok, dropped := r.dropped, steps := r.steps + 1 }

/-- Adds a key along with a value (`CuckooMap::insert`): direct placement
at `i1` then `i2`, otherwise the bounded eviction chain starting from a
randomly chosen candidate. -/
def CuckooMap.insert (hash : Fingerprint → Nat) (m : CuckooMap) (f : FaI)
    (v : Value) (r : Bool) : InsRes :=
  let p1 := m.put f.i1 f.fp v
  if p1.2 then { map := p1.1, ok := true, dropped := none, steps := 0 }
  else
    let p2 := p1.1.put f.i2 f.fp v
    if p2.2 then { map := p2.1, ok := true, dropped := none, steps := 0 }
    else
      CuckooMap.chain hash MAX_REBUCKET p2.1
        { fingerprint := f.fp, value := v } (f.random_index r)

/-- Result of `CuckooMap::test_and_add`: `res = some b` models `Ok(b)`,
`res = none` models `Err(NotEnoughSpace)`; `dropped` is the ghost
observation inherited from the delegated insert. -/
structure TadRes where
  map : CuckooMap
  res : Option Bool
  dropped : Option Bucket
deriving DecidableEq

/-- Adds a key only if absent (`CuckooMap::test_and_add`): `Ok(false)`
without mutation when `get` succeeds, else delegate to `insert` and map
`Ok(())` to `Ok(true)`. -/
def CuckooMap.test_and_add (hash : Fingerprint → Nat) (m : CuckooMap)
    (f : FaI) (v : Value) (r : Bool) : TadRes :=
  if (m.get f).isSome then
    { map := m, res := some false, dropped := none }
  else
    let res := m.insert hash f v r
    { map := res.map, res := if res.ok then some true else none,
      dropped := res.dropped }

/-- Deletes a key (`CuckooMap::delete`): `remove` at `i1`, short-circuit,
then `remove` at `i2`. -/
def CuckooMap.delete (m : CuckooMap) (f : FaI) : CuckooMap × Bool :=
  let r1 := m.remove f.fp f.i1
  if r1.2 then (r1.1, true)
  else
    let r2 := r1.1.remove f.fp f.i2
    (r2.1, r2.2)

/-- Empties all buckets and resets the counter (`CuckooMap::clear`); early
return when `len == 0`. -/
def CuckooMap.clear (m : CuckooMap) : CuckooMap :=
  if m.len = 0 then m
  else { buckets := m.buckets.map Bucket.clear, len := 0 }

/-- Check if the map is empty (`CuckooMap::is_empty`): `len == 0`. -/
def CuckooMap.is_empty (m : CuckooMap) : Bool :=
  m.len == 0

/-- The exact count of non-empty buckets: the integer numerator that
`CuckooMap::density` computes (`density() * capacity` as an exact count). -/
def CuckooMap.occupied (m : CuckooMap) : Nat :=
  (m.buckets.filter (fun b => !b.fingerprint.is_empty)).length

/-- A public mutating operation of the map, for stating trace properties. -/
inductive MapOp where
  | ins (f : FaI) (v : Value) (r : Bool)
  | tad (f : FaI) (v : Value) (r : Bool)
  | del (f : FaI)
  | clr
deriving DecidableEq

/-- Applies one public operation, discarding its return value. -/
def applyOp (hash : Fingerprint → Nat) (m : CuckooMap) : MapOp → CuckooMap
  | MapOp.ins f v r => (m.insert hash f v r).map
  | MapOp.tad f v r => (m.test_and_add hash f v r).map
  | MapOp.del f => (m.delete f).1
  | MapOp.clr => m.clear

/-- Runs a sequence of public operations. -/
def runOps (hash : Fingerprint → Nat) (m : CuckooMap) : List MapOp → CuckooMap
  | [] => m
  | op :: ops => runOps hash (applyOp hash m op) ops

/-- The ghost dropped-bucket observation of one operation applied at a
given state (only inserts can drop an entry). -/
def opDropped (hash : Fingerprint → Nat) (m : CuckooMap) : MapOp → Option Bucket
  | MapOp.ins f v r => (m.insert hash f v r).dropped
  | MapOp.tad f v r => (m.test_and_add hash f v r).dropped
  | MapOp.del _ => none
  | MapOp.clr => none

/-- The operation neither targets the protected fingerprint `k.fp` (it
deletes/inserts only keys with other fingerprints, and is not `clear`) nor
drops an entry carrying `k.fp` in a failed eviction chain at this state. -/
def opAvoids (hash : Fingerprint → Nat) (k : FaI) (m : CuckooMap)
    (op : MapOp) : Bool :=
  let fpOk : Bool :=
    match op with
    | MapOp.ins f _ _ => !(f.fp == k.fp)
    | MapOp.tad f _ _ => !(f.fp == k.fp)
    | MapOp.del f => !(f.fp == k.fp)
    | MapOp.clr => false
  let dropOk : Bool :=
    match opDropped hash m op with
    | some b => !(b.fingerprint == k.fp)
    | none => true
  fpOk && dropOk

/-- Every operation along the run avoids the protected key's fingerprint
and never drops it from a failed eviction chain. -/
def safeRun (hash : Fingerprint → Nat) (k : FaI) (m : CuckooMap) :
    List MapOp → Bool
  | [] => true
  | op :: ops => opAvoids hash k m op && safeRun hash k (applyOp hash m op) ops

/-- The fingerprint an operation carries (for the occupancy invariant all
operations must carry non-sentinel fingerprints, as real hashed keys do). -/
def opFpReal : MapOp → Bool
  | MapOp.ins f _ _ => !f.fp.is_empty
  | MapOp.tad f _ _ => !f.fp.is_empty
  | MapOp.del f => !f.fp.is_empty
  | MapOp.clr => true

/-- All operations of a trace carry non-sentinel fingerprints. -/
def opsFpReal (ops : List MapOp) : Bool :=
  ops.all opFpReal

/-! Helper lemmas: list access, counting, and xor arithmetic. -/

theorem getD_set_self {α : Type} (l : List α) (i : Nat) (d b : α)
    (h : i < l.length) : (l.set i b).getD i d = b := by
  rw [List.getD_eq_getElem _ _ (by simpa using h)]
  simp [List.getElem_set, h]

theorem getD_set_ne {α : Type} (l : List α) (i j : Nat) (d b : α)
    (h : i ≠ j) : (l.set i b).getD j d = l.getD j d := by
  by_cases hj : j < l.length
  · rw [List.getD_eq_getElem _ _ (by simpa using hj),
      List.getD_eq_getElem _ _ hj]
    simp [List.getElem_set, h]
  · rw [List.getD_eq_default _ _ (by simpa using Nat.le_of_not_lt hj),
      List.getD_eq_default _ _ (Nat.le_of_not_lt hj)]

theorem countP_set_formula {α : Type} (p : α → Bool) (d : α) :
    ∀ (l : List α) (i : Nat) (b : α), i < l.length →
      (l.set i b).countP p + (if p (l.getD i d) then 1 else 0) =
        l.countP p + (if p b then 1 else 0)
  | [], i, _, h => by simp at h
  | a :: t, 0, b, _ => by
      simp only [List.set, List.getD_cons_zero, List.countP_cons]
      by_cases hb : p b <;> by_cases ha : p a <;> simp [hb, ha] <;> omega
  | a :: t, i + 1, b, h => by
      have ih := countP_set_formula p d t i b (by simpa using h)
      simp only [List.set, List.getD_cons_succ, List.countP_cons]
      by_cases ha : p a <;> simp [ha] at ih ⊢ <;> omega

theorem countP_set_le {α : Type} (p : α → Bool) (l : List α) (i : Nat)
    (b : α) : (l.set i b).countP p ≤ l.countP p + 1 := by
  by_cases h : i < l.length
  · have := countP_set_formula p b l i b h
    by_cases hb : p b <;> simp [hb] at this <;> omega
  · rw [List.set_eq_of_length_le (Nat.le_of_not_lt h)]
    omega

theorem countP_set_same {α : Type} (p : α → Bool) (d : α) (l : List α)
    (i : Nat) (b : α) (h : i < l.length) (hsame : p b = p (l.getD i d)) :
    (l.set i b).countP p = l.countP p := by
  have := countP_set_formula p d l i b h
  rw [hsame] at this
  omega

theorem countP_set_drop {α : Type} (p : α → Bool) (d : α) (l : List α)
    (i : Nat) (b : α) (h : i < l.length) (hold : p (l.getD i d) = true)
    (hnew : p b = false) :
    (l.set i b).countP p + 1 = l.countP p := by
  have := countP_set_formula p d l i b h
  rw [hold, hnew] at this
  simpa using this

theorem countP_pos_of_getD {α : Type} (p : α → Bool) (d : α) (l : List α)
    (i : Nat) (h : i < l.length) (hp : p (l.getD i d) = true) :
    1 ≤ l.countP p := by
  have hm : l.getD i d ∈ l := by
    rw [List.getD_eq_getElem _ _ h]
    exact List.getElem_mem h
  have hpos := List.countP_pos_iff (p := p) (l := l)
  have : 0 < l.countP p := hpos.mpr ⟨_, hm, hp⟩
  omega

theorem countP_eq_one_of_getD {α : Type} (p : α → Bool) (d : α) :
    ∀ (l : List α) (j : Nat), j < l.length → p (l.getD j d) = true →
      (∀ j', j' ≠ j → p (l.getD j' d) = false) → l.countP p = 1
  | [], j, h, _, _ => by simp at h
  | a :: t, 0, _, hp, hu => by
      simp only [List.getD_cons_zero] at hp
      have ht : t.countP p = 0 := by
        rw [List.countP_eq_zero]
        intro x hx
        obtain ⟨i, hi, rfl⟩ := List.getElem_of_mem hx
        have := hu (i + 1) (by omega)
        simp only [List.getD_cons_succ] at this
        rw [List.getD_eq_getElem _ _ hi] at this
        simp [this]
      simp [List.countP_cons, hp, ht]
  | a :: t, j + 1, h, hp, hu => by
      simp only [List.getD_cons_succ] at hp
      have ha : p a = false := by
        have := hu 0 (by omega)
        simpa using this
      have ih := countP_eq_one_of_getD p d t j (by simpa using h) hp
        (fun j' hj' => by
          have := hu (j' + 1) (by omega)
          simpa using this)
      simp [List.countP_cons, ha, ih]

theorem xor_mod_two_pow (a b t : Nat) :
    (a ^^^ b) % 2 ^ t = (a % 2 ^ t) ^^^ (b % 2 ^ t) := by
  apply Nat.eq_of_testBit_eq
  intro i
  simp only [Nat.testBit_mod_two_pow, Nat.testBit_xor]
  by_cases h : i < t <;> simp [h]

/-! Bridging lemmas between the Bool tests of the code and propositions. -/

theorem Fingerprint.is_empty_iff (f : Fingerprint) :
    f.is_empty = true ↔ f = Fingerprint.empty := by
  cases f with
  | mk d => simp [Fingerprint.is_empty, Fingerprint.empty, EMPTY_FINGERPRINT]

theorem Fingerprint.is_empty_eq_false_iff (f : Fingerprint) :
    f.is_empty = false ↔ f ≠ Fingerprint.empty := by
  constructor
  · intro h he
    rw [he] at h
    simp [Fingerprint.is_empty, Fingerprint.empty] at h
  · intro h
    cases hb : f.is_empty
    · rfl
    · exact absurd ((Fingerprint.is_empty_iff f).mp hb) h

theorem Bucket.new_fingerprint_empty : Bucket.new.fingerprint = Fingerprint.empty := rfl

/-! Characterizations of the bucket primitives and of put/remove. -/

theorem Bucket.insert_pos (b : Bucket) (fp : Fingerprint) (v : Value)
    (h : b.fingerprint = Fingerprint.empty ∨ b.fingerprint = fp) :
    b.insert fp v = ({ fingerprint := fp, value := v }, true) := by
  unfold Bucket.insert
  rcases h with h | h
  · rw [if_pos]
    simp [Fingerprint.is_empty_iff, h]
  · rw [if_pos]
    simp [h]

theorem Bucket.insert_neg (b : Bucket) (fp : Fingerprint) (v : Value)
    (h1 : b.fingerprint ≠ Fingerprint.empty) (h2 : b.fingerprint ≠ fp) :
    b.insert fp v = (b, false) := by
  unfold Bucket.insert
  rw [if_neg]
  simp [Fingerprint.is_empty_iff, h1, h2]

theorem Bucket.delete_pos (b : Bucket) (fp : Fingerprint)
    (h : b.fingerprint = fp) :
    b.delete fp = ({ fingerprint := Fingerprint.empty, value := b.value }, true) := by
  unfold Bucket.delete
  simp [h]

theorem Bucket.delete_neg (b : Bucket) (fp : Fingerprint)
    (h : b.fingerprint ≠ fp) : b.delete fp = (b, false) := by
  unfold Bucket.delete
  simp [h]

theorem CuckooMap.put_pos (m : CuckooMap) (i : Nat) (fp : Fingerprint) (v : Value)
    (h : (m.buckets.getD (i % m.buckets.length) Bucket.new).fingerprint = Fingerprint.empty
       ∨ (m.buckets.getD (i % m.buckets.length) Bucket.new).fingerprint = fp) :
    m.put i fp v =
      ({ buckets := m.buckets.set (i % m.buckets.length) { fingerprint := fp, value := v },
         len := m.len + 1 }, true) := by
  unfold CuckooMap.put
  dsimp only
  rw [Bucket.insert_pos _ _ _ h]
  rfl

theorem CuckooMap.put_neg (m : CuckooMap) (i : Nat) (fp : Fingerprint) (v : Value)
    (h1 : (m.buckets.getD (i % m.buckets.length) Bucket.new).fingerprint ≠ Fingerprint.empty)
    (h2 : (m.buckets.getD (i % m.buckets.length) Bucket.new).fingerprint ≠ fp) :
    m.put i fp v = (m, false) := by
  unfold CuckooMap.put
  dsimp only
  rw [Bucket.insert_neg _ _ _ h1 h2]
  rfl

theorem CuckooMap.put_fail_state (m : CuckooMap) (i : Nat) (fp : Fingerprint)
    (v : Value) (h : (m.put i fp v).2 = false) : (m.put i fp v).1 = m := by
  by_cases hc : (m.buckets.getD (i % m.buckets.length) Bucket.new).fingerprint = Fingerprint.empty
      ∨ (m.buckets.getD (i % m.buckets.length) Bucket.new).fingerprint = fp
  · rw [CuckooMap.put_pos m i fp v hc] at h
    simp at h
  · push_neg at hc
    rw [CuckooMap.put_neg m i fp v hc.1 hc.2]

theorem CuckooMap.put_fail_occupied (m : CuckooMap) (i : Nat) (fp : Fingerprint)
    (v : Value) (h : (m.put i fp v).2 = false) :
    (m.buckets.getD (i % m.buckets.length) Bucket.new).fingerprint ≠ Fingerprint.empty
      ∧ (m.buckets.getD (i % m.buckets.length) Bucket.new).fingerprint ≠ fp := by
  by_cases hc : (m.buckets.getD (i % m.buckets.length) Bucket.new).fingerprint = Fingerprint.empty
      ∨ (m.buckets.getD (i % m.buckets.length) Bucket.new).fingerprint = fp
  · rw [CuckooMap.put_pos m i fp v hc] at h
    simp at h
  · push_neg at hc
    exact hc

theorem CuckooMap.remove_pos (m : CuckooMap) (fp : Fingerprint) (i : Nat)
    (h : (m.buckets.getD (i % m.buckets.length) Bucket.new).fingerprint = fp) :
    m.remove fp i =
      ({ buckets := m.buckets.set (i % m.buckets.length)
           { fingerprint := Fingerprint.empty,
             value := (m.buckets.getD (i % m.buckets.length) Bucket.new).value },
         len := m.len - 1 }, true) := by
  unfold CuckooMap.remove
  dsimp only
  rw [Bucket.delete_pos _ _ h]
  rfl

theorem CuckooMap.remove_neg (m : CuckooMap) (fp : Fingerprint) (i : Nat)
    (h : (m.buckets.getD (i % m.buckets.length) Bucket.new).fingerprint ≠ fp) :
    m.remove fp i = (m, false) := by
  unfold CuckooMap.remove
  dsimp only
  rw [Bucket.delete_neg _ _ h]
  rfl

/-! Length preservation: the bucket array's length never changes after
construction. -/

theorem CuckooMap.put_length (m : CuckooMap) (i : Nat) (fp : Fingerprint)
    (v : Value) : ((m.put i fp v).1).buckets.length = m.buckets.length := by
  unfold CuckooMap.put
  dsimp only
  split <;> simp

theorem CuckooMap.remove_length (m : CuckooMap) (fp : Fingerprint) (i : Nat) :
    ((m.remove fp i).1).buckets.length = m.buckets.length := by
  unfold CuckooMap.remove
  dsimp only
  split <;> simp

theorem CuckooMap.chain_length (hash : Fingerprint → Nat) :
    ∀ (fuel : Nat) (m : CuckooMap) (current : Bucket) (i : Nat),
      ((CuckooMap.chain hash fuel m current i).map).buckets.length = m.buckets.length
  | 0, _, _, _ => rfl
  | fuel + 1, m, current, i => by
      unfold CuckooMap.chain
      dsimp only
      split
      · rw [CuckooMap.put_length]
        simp
      · rw [CuckooMap.chain_length hash fuel]
        rw [CuckooMap.put_length]
        simp

theorem CuckooMap.insert_length (hash : Fingerprint → Nat) (m : CuckooMap)
    (f : FaI) (v : Value) (r : Bool) :
    ((m.insert hash f v r).map).buckets.length = m.buckets.length := by
  unfold CuckooMap.insert
  dsimp only
  split
  · rw [CuckooMap.put_length]
  · split
    · rw [CuckooMap.put_length, CuckooMap.put_length]
    · rw [CuckooMap.chain_length, CuckooMap.put_length, CuckooMap.put_length]

theorem CuckooMap.test_and_add_length (hash : Fingerprint → Nat) (m : CuckooMap)
    (f : FaI) (v : Value) (r : Bool) :
    ((m.test_and_add hash f v r).map).buckets.length = m.buckets.length := by
  unfold CuckooMap.test_and_add
  split
  · rfl
  · exact CuckooMap.insert_length hash m f v r

theorem CuckooMap.delete_length (m : CuckooMap) (f : FaI) :
    ((m.delete f).1).buckets.length = m.buckets.length := by
  unfold CuckooMap.delete
  dsimp only
  split
  · rw [CuckooMap.remove_length]
  · rw [CuckooMap.remove_length, CuckooMap.remove_length]

theorem CuckooMap.clear_length (m : CuckooMap) :
    (m.clear).buckets.length = m.buckets.length := by
  unfold CuckooMap.clear
  split <;> simp

theorem applyOp_length (hash : Fingerprint → Nat) (m : CuckooMap) (op : MapOp) :
    (applyOp hash m op).buckets.length = m.buckets.length := by
  cases op with
  | ins f v r => exact CuckooMap.insert_length hash m f v r
  | tad f v r => exact CuckooMap.test_and_add_length hash m f v r
  | del f => exact CuckooMap.delete_length m f
  | clr => exact CuckooMap.clear_length m

theorem runOps_length (hash : Fingerprint → Nat) :
    ∀ (ops : List MapOp) (m : CuckooMap),
      (runOps hash m ops).buckets.length = m.buckets.length
  | [], _ => rfl
  | op :: ops, m => by
      unfold runOps
      rw [runOps_length hash ops, applyOp_length]

/-! Key-tracking invariant: the protected key's fingerprint occupies exactly
one slot, that slot is one of its two candidate positions, and it carries
the protected value. -/

/-- The bucket-array length of a real map is a power of two (established by
`with_capacity` and preserved by every operation). -/
def IsPow2 (n : Nat) : Prop := ∃ t, n = 2 ^ t

/-- Wellformedness of a hash triple, as the spec-modelled hashing scheme
guarantees: the fingerprint is non-sentinel and the second candidate index
is the first one xored with the fingerprint's digest (spec §4.2). -/
def WFai (hash : Fingerprint → Nat) (f : FaI) : Prop :=
  f.fp ≠ Fingerprint.empty ∧ f.i2 = f.i1 ^^^ hash f.fp

/-- No bucket of the array holds the given fingerprint. -/
def NoFpL (fp : Fingerprint) (l : List Bucket) : Prop :=
  ∀ j, (l.getD j Bucket.new).fingerprint ≠ fp

/-- The protected pair `(k.fp, v)` sits in exactly one bucket, at one of
`k`'s two candidate positions. -/
def KInvL (k : FaI) (v : Value) (l : List Bucket) : Prop :=
  ∃ j, (j = k.i1 % l.length ∨ j = k.i2 % l.length) ∧
    l.getD j Bucket.new = { fingerprint := k.fp, value := v } ∧
    ∀ j', j' ≠ j → (l.getD j' Bucket.new).fingerprint ≠ k.fp

theorem getD_lt_of_fp (l : List Bucket) (j : Nat) (fp : Fingerprint)
    (hfp : fp ≠ Fingerprint.empty)
    (h : (l.getD j Bucket.new).fingerprint = fp) : j < l.length := by
  by_contra hle
  rw [List.getD_eq_default _ _ (Nat.le_of_not_lt hle)] at h
  exact hfp h.symm

theorem cand_alt_step (hash : Fingerprint → Nat) (k : FaI)
    (hwf : WFai hash k) (n : Nat) (hp2 : IsPow2 n) (i : Nat)
    (hc : i % n = k.i1 % n ∨ i % n = k.i2 % n) :
    (i ^^^ hash k.fp) % n = k.i1 % n ∨ (i ^^^ hash k.fp) % n = k.i2 % n := by
  obtain ⟨t, rfl⟩ := hp2
  rw [xor_mod_two_pow]
  have h2 : k.i2 % 2 ^ t = (k.i1 % 2 ^ t) ^^^ (hash k.fp % 2 ^ t) := by
    rw [hwf.2, xor_mod_two_pow]
  rcases hc with hc | hc
  · right
    rw [hc, h2]
  · left
    rw [hc, h2, Nat.xor_assoc, Nat.xor_self, Nat.xor_zero]

theorem CuckooMap.get_eq (m : CuckooMap) (f : FaI) :
    m.get f =
      (if (m.buckets.getD (f.i1 % m.buckets.length) Bucket.new).fingerprint = f.fp
       then some (m.buckets.getD (f.i1 % m.buckets.length) Bucket.new).value
       else if (m.buckets.getD (f.i2 % m.buckets.length) Bucket.new).fingerprint = f.fp
       then some (m.buckets.getD (f.i2 % m.buckets.length) Bucket.new).value
       else none) := by
  unfold CuckooMap.get
  dsimp only
  by_cases h1 : (m.buckets.getD (f.i1 % m.buckets.length) Bucket.new).fingerprint = f.fp
  · simp [h1]
  · by_cases h2 : (m.buckets.getD (f.i2 % m.buckets.length) Bucket.new).fingerprint = f.fp
    · simp [h1, h2]
    · simp [h1, h2]

theorem get_of_KInvL (m : CuckooMap) (k : FaI) (v : Value)
    (hfp : k.fp ≠ Fingerprint.empty) (h : KInvL k v m.buckets) :
    m.get k = some v := by
  obtain ⟨j, hc, hj, hu⟩ := h
  have hfpj : (m.buckets.getD j Bucket.new).fingerprint = k.fp := by rw [hj]
  rw [CuckooMap.get_eq]
  rcases hc with hc | hc
  · rw [← hc, hj]
    simp
  · by_cases h1 : k.i1 % m.buckets.length = j
    · rw [h1, hj]
      simp
    · rw [if_neg (hu _ h1), ← hc, hj]
      simp

theorem KInvL_put (k : FaI) (v : Value) (hkfp : k.fp ≠ Fingerprint.empty)
    (m : CuckooMap) (i : Nat) (fp' : Fingerprint) (v' : Value)
    (hne : fp' ≠ k.fp) (h : KInvL k v m.buckets) :
    KInvL k v ((m.put i fp' v').1).buckets := by
  obtain ⟨j, hc, hj, hu⟩ := h
  have hfpj : (m.buckets.getD j Bucket.new).fingerprint = k.fp := by rw [hj]
  have hjlt : j < m.buckets.length := getD_lt_of_fp _ _ _ hkfp hfpj
  have hn : 0 < m.buckets.length := Nat.lt_of_le_of_lt (Nat.zero_le j) hjlt
  by_cases hcnd : (m.buckets.getD (i % m.buckets.length) Bucket.new).fingerprint = Fingerprint.empty
      ∨ (m.buckets.getD (i % m.buckets.length) Bucket.new).fingerprint = fp'
  · rw [CuckooMap.put_pos m i fp' v' hcnd]
    have htj : i % m.buckets.length ≠ j := by
      intro he
      rw [he, hfpj] at hcnd
      rcases hcnd with hcnd | hcnd
      · exact hkfp hcnd
      · exact hne hcnd.symm
    refine ⟨j, ?_, ?_, ?_⟩
    · simpa using hc
    · rw [getD_set_ne _ _ _ _ _ htj]
      exact hj
    · intro j' hj'
      by_cases hjt : j' = i % m.buckets.length
      · rw [hjt, getD_set_self _ _ _ _ (Nat.mod_lt i hn)]
        exact fun hh => hne hh
      · rw [getD_set_ne _ _ _ _ _ (fun hh => hjt hh.symm)]
        exact hu j' hj'
  · push_neg at hcnd
    rw [CuckooMap.put_neg m i fp' v' hcnd.1 hcnd.2]
    exact ⟨j, hc, hj, hu⟩

theorem KInvL_put_self (k : FaI) (v : Value) (hkfp : k.fp ≠ Fingerprint.empty)
    (m : CuckooMap) (i : Nat) (hn : 0 < m.buckets.length)
    (hc : i % m.buckets.length = k.i1 % m.buckets.length
        ∨ i % m.buckets.length = k.i2 % m.buckets.length)
    (hno : NoFpL k.fp m.buckets)
    (hok : (m.put i k.fp v).2 = true) :
    KInvL k v ((m.put i k.fp v).1).buckets := by
  by_cases hcnd : (m.buckets.getD (i % m.buckets.length) Bucket.new).fingerprint = Fingerprint.empty
      ∨ (m.buckets.getD (i % m.buckets.length) Bucket.new).fingerprint = k.fp
  · rw [CuckooMap.put_pos m i k.fp v hcnd]
    refine ⟨i % m.buckets.length, ?_, ?_, ?_⟩
    · simpa using hc
    · rw [getD_set_self _ _ _ _ (Nat.mod_lt i hn)]
    · intro j' hj'
      rw [getD_set_ne _ _ _ _ _ (fun hh => hj' hh.symm)]
      exact hno j'
  · push_neg at hcnd
    rw [CuckooMap.put_neg m i k.fp v hcnd.1 hcnd.2] at hok
    simp at hok

theorem NoFpL_set (fp : Fingerprint) (l : List Bucket) (t : Nat) (b : Bucket)
    (ht : t < l.length) (hb : b.fingerprint ≠ fp) (h : NoFpL fp l) :
    NoFpL fp (l.set t b) := by
  intro j
  by_cases hjt : j = t
  · rw [hjt, getD_set_self _ _ _ _ ht]
    exact hb
  · rw [getD_set_ne _ _ _ _ _ (fun hh => hjt hh.symm)]
    exact h j

theorem KInvL_set_other (k : FaI) (v : Value)
    (l : List Bucket) (t : Nat) (b : Bucket) (hb : b.fingerprint ≠ k.fp)
    (ht : t < l.length) (hK : KInvL k v l)
    (htne : (l.getD t Bucket.new).fingerprint ≠ k.fp) :
    KInvL k v (l.set t b) := by
  obtain ⟨j, hc, hj, hu⟩ := hK
  have htj : t ≠ j := by
    intro he
    rw [he, hj] at htne
    exact htne rfl
  refine ⟨j, by simpa using hc, ?_, ?_⟩
  · rw [getD_set_ne _ _ _ _ _ htj]
    exact hj
  · intro j' hj'
    by_cases hjt : j' = t
    · rw [hjt, getD_set_self _ _ _ _ ht]
      exact hb
    · rw [getD_set_ne _ _ _ _ _ (fun hh => hjt hh.symm)]
      exact hu j' hj'

theorem KInvL_set_self_k (k : FaI) (v : Value) (l : List Bucket) (t : Nat)
    (ht : t < l.length)
    (hcand : t = k.i1 % l.length ∨ t = k.i2 % l.length)
    (hno : NoFpL k.fp l) :
    KInvL k v (l.set t { fingerprint := k.fp, value := v }) := by
  refine ⟨t, by simpa using hcand, ?_, ?_⟩
  · rw [getD_set_self _ _ _ _ ht]
  · intro j' hj'
    rw [getD_set_ne _ _ _ _ _ (fun hh => hj' hh.symm)]
    exact hno j'

theorem NoFpL_set_of_unique (fp : Fingerprint) (l : List Bucket) (t : Nat)
    (b : Bucket) (ht : t < l.length) (hb : b.fingerprint ≠ fp)
    (hu : ∀ j', j' ≠ t → (l.getD j' Bucket.new).fingerprint ≠ fp) :
    NoFpL fp (l.set t b) := by
  intro j'
  by_cases hjt : j' = t
  · rw [hjt, getD_set_self _ _ _ _ ht]
    exact hb
  · rw [getD_set_ne _ _ _ _ _ (fun hh => hjt hh.symm)]
    exact hu j' hjt

/-- Invariant carried through the eviction loop while protecting key `k`
with value `v`: either the displaced entry is unrelated to `k` and the
array satisfies the key-tracking invariant, or the displaced entry IS `k`'s
pair, its pending position is one of `k`'s candidate slots, and `k.fp`
occurs nowhere in the array. -/
def ChainInv (k : FaI) (v : Value) (m : CuckooMap) (cur : Bucket) (i : Nat) : Prop :=
  (cur.fingerprint ≠ k.fp ∧ KInvL k v m.buckets) ∨
  (cur = { fingerprint := k.fp, value := v } ∧ 0 < m.buckets.length ∧
    (i % m.buckets.length = k.i1 % m.buckets.length ∨
     i % m.buckets.length = k.i2 % m.buckets.length) ∧
    NoFpL k.fp m.buckets)

theorem ChainInv_step (hash : Fingerprint → Nat) (k : FaI) (v : Value)
    (hwf : WFai hash k) (m : CuckooMap) (cur : Bucket) (i : Nat)
    (hp2 : IsPow2 m.buckets.length) (hinv : ChainInv k v m cur i) :
    ((CuckooMap.put ⟨m.buckets.set (i % m.buckets.length) cur, m.len⟩
        (get_alt_index hash (m.buckets.getD (i % m.buckets.length) Bucket.new).fingerprint i)
        (m.buckets.getD (i % m.buckets.length) Bucket.new).fingerprint
        (m.buckets.getD (i % m.buckets.length) Bucket.new).value).2 = true →
      KInvL k v ((CuckooMap.put ⟨m.buckets.set (i % m.buckets.length) cur, m.len⟩
        (get_alt_index hash (m.buckets.getD (i % m.buckets.length) Bucket.new).fingerprint i)
        (m.buckets.getD (i % m.buckets.length) Bucket.new).fingerprint
        (m.buckets.getD (i % m.buckets.length) Bucket.new).value).1).buckets) ∧
    ((CuckooMap.put ⟨m.buckets.set (i % m.buckets.length) cur, m.len⟩
        (get_alt_index hash (m.buckets.getD (i % m.buckets.length) Bucket.new).fingerprint i)
        (m.buckets.getD (i % m.buckets.length) Bucket.new).fingerprint
        (m.buckets.getD (i % m.buckets.length) Bucket.new).value).2 = false →
      ChainInv k v
        ((CuckooMap.put ⟨m.buckets.set (i % m.buckets.length) cur, m.len⟩
          (get_alt_index hash (m.buckets.getD (i % m.buckets.length) Bucket.new).fingerprint i)
          (m.buckets.getD (i % m.buckets.length) Bucket.new).fingerprint
          (m.buckets.getD (i % m.buckets.length) Bucket.new).value).1)
        (m.buckets.getD (i % m.buckets.length) Bucket.new)
        (get_alt_index hash (m.buckets.getD (i % m.buckets.length) Bucket.new).fingerprint i)) := by
  have hkfp : k.fp ≠ Fingerprint.empty := hwf.1
  set kicked := m.buckets.getD (i % m.buckets.length) Bucket.new with hkk
  set m1 : CuckooMap := (⟨m.buckets.set (i % m.buckets.length) cur, m.len⟩ : CuckooMap) with hm1
  set ialt := get_alt_index hash kicked.fingerprint i with hia
  have hm1b : m1.buckets = m.buckets.set (i % m.buckets.length) cur := by rw [hm1]
  have hm1len : m1.buckets.length = m.buckets.length := by
    rw [hm1b]
    simp
  rcases hinv with ⟨hcne, hKI⟩ | ⟨hcur, hn0, hcand, hno⟩
  · obtain ⟨j, hc, hj, hu⟩ := hKI
    have hjfp : (m.buckets.getD j Bucket.new).fingerprint = k.fp := by rw [hj]
    have hjlt : j < m.buckets.length := getD_lt_of_fp m.buckets j k.fp hkfp hjfp
    have hn0m : 0 < m.buckets.length := Nat.lt_of_le_of_lt (Nat.zero_le j) hjlt
    have htlt : i % m.buckets.length < m.buckets.length := Nat.mod_lt i hn0m
    by_cases htj : i % m.buckets.length = j
    · have hkeq : kicked = { fingerprint := k.fp, value := v } := by
        rw [hkk, htj]
        exact hj
      have hnofp1 : NoFpL k.fp m1.buckets := by
        rw [hm1b]
        exact NoFpL_set_of_unique k.fp m.buckets (i % m.buckets.length) cur htlt hcne
          (fun j' hj' => hu j' (by rw [← htj]; exact hj'))
      have hcm : i % m.buckets.length = k.i1 % m.buckets.length
          ∨ i % m.buckets.length = k.i2 % m.buckets.length := by
        rw [htj]
        exact hc
      have hcand' : ialt % m.buckets.length = k.i1 % m.buckets.length
          ∨ ialt % m.buckets.length = k.i2 % m.buckets.length := by
        have hstep := cand_alt_step hash k hwf m.buckets.length hp2 i hcm
        rw [hia, hkeq]
        simpa [get_alt_index] using hstep
      constructor
      · intro hok
        rw [hkeq] at hok ⊢
        dsimp only at hok ⊢
        exact KInvL_put_self k v hkfp m1 ialt
          (by rw [hm1len]; exact hn0m)
          (by rw [hm1len]; exact hcand')
          hnofp1 hok
      · intro hfail
        have hst := CuckooMap.put_fail_state m1 ialt kicked.fingerprint kicked.value hfail
        right
        refine ⟨hkeq, ?_, ?_, ?_⟩
        · rw [hst, hm1len]
          exact hn0m
        · rw [hst, hm1len]
          exact hcand'
        · rw [hst]
          exact hnofp1
    · have hkfpne : kicked.fingerprint ≠ k.fp := by
        rw [hkk]
        exact hu _ htj
      have hKm1 : KInvL k v m1.buckets := by
        rw [hm1b]
        exact KInvL_set_other k v m.buckets (i % m.buckets.length) cur hcne htlt
          ⟨j, hc, hj, hu⟩ (by rw [← hkk]; exact hkfpne)
      have hKpr := KInvL_put k v hkfp m1 ialt kicked.fingerprint kicked.value hkfpne hKm1
      constructor
      · intro _
        exact hKpr
      · intro _
        left
        exact ⟨hkfpne, hKpr⟩
  · have htlt : i % m.buckets.length < m.buckets.length := Nat.mod_lt i hn0
    have hkfpne : kicked.fingerprint ≠ k.fp := by
      rw [hkk]
      exact hno _
    have hKm1 : KInvL k v m1.buckets := by
      rw [hm1b, hcur]
      exact KInvL_set_self_k k v m.buckets (i % m.buckets.length) htlt hcand hno
    have hKpr := KInvL_put k v hkfp m1 ialt kicked.fingerprint kicked.value hkfpne hKm1
    constructor
    · intro _
      exact hKpr
    · intro _
      left
      exact ⟨hkfpne, hKpr⟩

theorem chain_ChainInv (hash : Fingerprint → Nat) (k : FaI) (v : Value)
    (hwf : WFai hash k) :
    ∀ (fuel : Nat) (m : CuckooMap) (cur : Bucket) (i : Nat),
      IsPow2 m.buckets.length → ChainInv k v m cur i →
      ((CuckooMap.chain hash fuel m cur i).ok = true →
        KInvL k v (CuckooMap.chain hash fuel m cur i).map.buckets) ∧
      ((CuckooMap.chain hash fuel m cur i).ok = false →
        KInvL k v (CuckooMap.chain hash fuel m cur i).map.buckets ∨
        ∃ b, (CuckooMap.chain hash fuel m cur i).dropped = some b ∧
          b.fingerprint = k.fp)
  | 0, m, cur, i => by
      intro _ hinv
      constructor
      · intro hok
        simp [CuckooMap.chain] at hok
      · intro _
        rcases hinv with ⟨_, hK⟩ | ⟨hcur, _, _, _⟩
        · left
          simpa [CuckooMap.chain] using hK
        · right
          refine ⟨cur, by simp [CuckooMap.chain], ?_⟩
          rw [hcur]
  | fuel + 1, m, cur, i => by
      intro hp2 hinv
      have hstep := ChainInv_step hash k v hwf m cur i hp2 hinv
      unfold CuckooMap.chain
      dsimp only
      split
      · next hok =>
          refine ⟨fun _ => hstep.1 hok, fun hfalse => by simp at hfalse⟩
      · next hfailc =>
          rw [Bool.not_eq_true] at hfailc
          have hinv' := hstep.2 hfailc
          have hp2' : IsPow2 ((CuckooMap.put ⟨m.buckets.set (i % m.buckets.length) cur, m.len⟩
              (get_alt_index hash (m.buckets.getD (i % m.buckets.length) Bucket.new).fingerprint i)
              (m.buckets.getD (i % m.buckets.length) Bucket.new).fingerprint
              (m.buckets.getD (i % m.buckets.length) Bucket.new).value).1).buckets.length := by
            rw [CuckooMap.put_length]
            simpa using hp2
          have ih := chain_ChainInv hash k v hwf fuel _ _ _ hp2' hinv'
          exact ⟨fun h => ih.1 h, fun h => ih.2 h⟩

theorem insert_establish (hash : Fingerprint → Nat) (k : FaI) (v : Value) (r : Bool)
    (hwf : WFai hash k) (m : CuckooMap) (hp2 : IsPow2 m.buckets.length)
    (hn0 : 0 < m.buckets.length) (hno : NoFpL k.fp m.buckets)
    (hok : (m.insert hash k v r).ok = true) :
    KInvL k v (m.insert hash k v r).map.buckets := by
  unfold CuckooMap.insert at hok ⊢
  dsimp only at hok ⊢
  by_cases h1 : (m.put k.i1 k.fp v).2 = true
  · rw [if_pos h1]
    dsimp only
    exact KInvL_put_self k v hwf.1 m k.i1 hn0 (Or.inl rfl) hno h1
  · rw [if_neg h1] at hok ⊢
    rw [CuckooMap.put_fail_state m k.i1 k.fp v (by simpa using h1)] at hok ⊢
    by_cases h2 : (m.put k.i2 k.fp v).2 = true
    · rw [if_pos h2]
      dsimp only
      exact KInvL_put_self k v hwf.1 m k.i2 hn0 (Or.inr rfl) hno h2
    · rw [if_neg h2] at hok ⊢
      rw [CuckooMap.put_fail_state m k.i2 k.fp v (by simpa using h2)] at hok ⊢
      have hc : (k.random_index r) % m.buckets.length = k.i1 % m.buckets.length
          ∨ (k.random_index r) % m.buckets.length = k.i2 % m.buckets.length := by
        cases r <;> simp [FaI.random_index]
      have hch := chain_ChainInv hash k v hwf MAX_REBUCKET m
        { fingerprint := k.fp, value := v } (k.random_index r) hp2
        (Or.inr ⟨rfl, hn0, hc, hno⟩)
      exact hch.1 hok

theorem insert_KInvL (hash : Fingerprint → Nat) (k : FaI) (v : Value)
    (hwf : WFai hash k) (m : CuckooMap) (f : FaI) (v' : Value) (r : Bool)
    (hp2 : IsPow2 m.buckets.length) (hne : f.fp ≠ k.fp)
    (hK : KInvL k v m.buckets)
    (hdrop : ∀ b, (m.insert hash f v' r).dropped = some b → b.fingerprint ≠ k.fp) :
    KInvL k v (m.insert hash f v' r).map.buckets := by
  unfold CuckooMap.insert at hdrop ⊢
  dsimp only at hdrop ⊢
  by_cases h1 : (m.put f.i1 f.fp v').2 = true
  · rw [if_pos h1]
    dsimp only
    exact KInvL_put k v hwf.1 m f.i1 f.fp v' hne hK
  · rw [if_neg h1] at hdrop ⊢
    rw [CuckooMap.put_fail_state m f.i1 f.fp v' (by simpa using h1)] at hdrop ⊢
    by_cases h2 : (m.put f.i2 f.fp v').2 = true
    · rw [if_pos h2]
      dsimp only
      exact KInvL_put k v hwf.1 m f.i2 f.fp v' hne hK
    · rw [if_neg h2] at hdrop ⊢
      rw [CuckooMap.put_fail_state m f.i2 f.fp v' (by simpa using h2)] at hdrop ⊢
      have hch := chain_ChainInv hash k v hwf MAX_REBUCKET m
        { fingerprint := f.fp, value := v' } (f.random_index r) hp2
        (Or.inl ⟨hne, hK⟩)
      cases hco : (CuckooMap.chain hash MAX_REBUCKET m
          { fingerprint := f.fp, value := v' } (f.random_index r)).ok
      · rcases hch.2 hco with hKI | ⟨b, hb, hbf⟩
        · exact hKI
        · exact absurd hbf (hdrop b hb)
      · exact hch.1 hco

theorem remove_KInvL (k : FaI) (v : Value) (hkfp : k.fp ≠ Fingerprint.empty)
    (m : CuckooMap) (fp' : Fingerprint) (i : Nat) (hne : fp' ≠ k.fp)
    (hK : KInvL k v m.buckets) : KInvL k v ((m.remove fp' i).1).buckets := by
  by_cases hc : (m.buckets.getD (i % m.buckets.length) Bucket.new).fingerprint = fp'
  · rw [CuckooMap.remove_pos m fp' i hc]
    obtain ⟨j, hcand, hj, hu⟩ := hK
    have hjlt : j < m.buckets.length := getD_lt_of_fp _ _ _ hkfp (by rw [hj])
    have hn0 : 0 < m.buckets.length := Nat.lt_of_le_of_lt (Nat.zero_le j) hjlt
    have htj : i % m.buckets.length ≠ j := by
      intro he
      rw [he, hj] at hc
      exact hne hc.symm
    refine ⟨j, by simpa using hcand, ?_, ?_⟩
    · rw [getD_set_ne _ _ _ _ _ htj]
      exact hj
    · intro j' hj'
      by_cases hjt : j' = i % m.buckets.length
      · rw [hjt, getD_set_self _ _ _ _ (Nat.mod_lt i hn0)]
        exact fun hh => hkfp hh.symm
      · rw [getD_set_ne _ _ _ _ _ (fun hh => hjt hh.symm)]
        exact hu j' hj'
  · rw [CuckooMap.remove_neg m fp' i hc]
    exact hK

theorem delete_KInvL (k : FaI) (v : Value) (hkfp : k.fp ≠ Fingerprint.empty)
    (m : CuckooMap) (f : FaI) (hne : f.fp ≠ k.fp)
    (hK : KInvL k v m.buckets) : KInvL k v ((m.delete f).1).buckets := by
  unfold CuckooMap.delete
  dsimp only
  split
  · exact remove_KInvL k v hkfp m f.fp f.i1 hne hK
  · exact remove_KInvL k v hkfp _ f.fp f.i2 hne
      (remove_KInvL k v hkfp m f.fp f.i1 hne hK)

theorem applyOp_KInvL (hash : Fingerprint → Nat) (k : FaI) (v : Value)
    (hwf : WFai hash k) (m : CuckooMap) (op : MapOp)
    (hp2 : IsPow2 m.buckets.length) (hK : KInvL k v m.buckets)
    (hav : opAvoids hash k m op = true) :
    KInvL k v (applyOp hash m op).buckets := by
  cases op with
  | ins f v' r =>
      unfold opAvoids opDropped at hav
      dsimp only at hav
      rw [Bool.and_eq_true] at hav
      have hne : f.fp ≠ k.fp := by simpa using hav.1
      have hdrop : ∀ b, (m.insert hash f v' r).dropped = some b →
          b.fingerprint ≠ k.fp := by
        intro b hb
        have hd := hav.2
        rw [hb] at hd
        simpa using hd
      exact insert_KInvL hash k v hwf m f v' r hp2 hne hK hdrop
  | tad f v' r =>
      unfold opAvoids opDropped at hav
      dsimp only at hav
      rw [Bool.and_eq_true] at hav
      have hne : f.fp ≠ k.fp := by simpa using hav.1
      show KInvL k v (m.test_and_add hash f v' r).map.buckets
      unfold CuckooMap.test_and_add at hav ⊢
      dsimp only at hav ⊢
      by_cases hg : (m.get f).isSome
      · rw [if_pos hg]
        exact hK
      · rw [if_neg hg] at hav ⊢
        have hdrop : ∀ b, (m.insert hash f v' r).dropped = some b →
            b.fingerprint ≠ k.fp := by
          intro b hb
          have hd := hav.2
          rw [hb] at hd
          simpa using hd
        exact insert_KInvL hash k v hwf m f v' r hp2 hne hK hdrop
  | del f =>
      unfold opAvoids at hav
      dsimp only at hav
      rw [Bool.and_eq_true] at hav
      have hne : f.fp ≠ k.fp := by simpa using hav.1
      exact delete_KInvL k v hwf.1 m f hne hK
  | clr =>
      exact absurd hav (by simp [opAvoids])

theorem runOps_KInvL (hash : Fingerprint → Nat) (k : FaI) (v : Value)
    (hwf : WFai hash k) :
    ∀ (ops : List MapOp) (m : CuckooMap), IsPow2 m.buckets.length →
      KInvL k v m.buckets → safeRun hash k m ops = true →
      KInvL k v (runOps hash m ops).buckets
  | [], m => by
      intro _ hK _
      exact hK
  | op :: ops, m => by
      intro hp2 hK hsafe
      unfold safeRun at hsafe
      rw [Bool.and_eq_true] at hsafe
      unfold runOps
      exact runOps_KInvL hash k v hwf ops (applyOp hash m op)
        (by rw [applyOp_length]; exact hp2)
        (applyOp_KInvL hash k v hwf m op hp2 hK hsafe.1)
        hsafe.2

theorem NoFpL_with_capacity (fp : Fingerprint) (hfp : fp ≠ Fingerprint.empty)
    (cap : Nat) : NoFpL fp (CuckooMap.with_capacity cap).buckets := by
  intro j
  unfold CuckooMap.with_capacity
  dsimp only
  by_cases hj : j < (List.replicate (max 1 (nextPowerOfTwo cap)) Bucket.new).length
  · rw [List.getD_eq_getElem _ _ hj, List.getElem_replicate]
    exact fun hh => hfp hh.symm
  · rw [List.getD_eq_default _ _ (Nat.le_of_not_lt hj)]
    exact fun hh => hfp hh.symm

/-- C1 (amended): a key `k` successfully inserted is still mapped to its
value by `get` after any sequence of further operations, provided none of
them clears the map, targets `k`'s fingerprint (insertion of a colliding
key or deletion via a colliding fingerprint), or drops `k`'s fingerprint as
the final displaced entry of a failed eviction chain.  The hashing scheme
is any digest consistent with the spec (`util.rs` is absent from the
sources), and the map's bucket count is a power of two, as `with_capacity`
guarantees. -/
theorem C1_no_false_negatives (hash : Fingerprint → Nat) (m0 : CuckooMap)
    (k : FaI) (v : Value) (r : Bool) (ops : List MapOp)
    (hp2 : IsPow2 m0.buckets.length) (hwf : WFai hash k)
    (hno : NoFpL k.fp m0.buckets)
    (hok : (m0.insert hash k v r).ok = true)
    (hsafe : safeRun hash k (m0.insert hash k v r).map ops = true) :
    (runOps hash (m0.insert hash k v r).map ops).get k = some v := by
  have hn0 : 0 < m0.buckets.length := by
    obtain ⟨t, ht⟩ := hp2
    rw [ht]
    exact pow_pos (by decide) t
  have hest := insert_establish hash k v r hwf m0 hp2 hn0 hno hok
  have hrun := runOps_KInvL hash k v hwf ops (m0.insert hash k v r).map
    (by rw [CuckooMap.insert_length]; exact hp2) hest hsafe
  exact get_of_KInvL _ k v hwf.1 hrun

/-- C1 witness: in a fresh capacity-1 map, key `(fp 5, 0, 0)` is inserted
with value 7 and survives a later deletion of an unrelated key. -/
theorem C1_no_false_negatives_witness :
    (runOps (fun _ => 0)
        ((CuckooMap.with_capacity 1).insert (fun _ => 0) ⟨⟨5⟩, 0, 0⟩ 7 false).map
        [MapOp.del ⟨⟨6⟩, 1, 1⟩]).get ⟨⟨5⟩, 0, 0⟩ = some 7 :=
  C1_no_false_negatives (fun _ => 0) (CuckooMap.with_capacity 1) ⟨⟨5⟩, 0, 0⟩ 7
    false [MapOp.del ⟨⟨6⟩, 1, 1⟩] ⟨0, by decide⟩ ⟨by decide, by decide⟩
    (NoFpL_with_capacity _ (by decide) 1) (by decide) (by decide)

/-- C1 counterexample: the claim as stated is false.  Keys 0 and 1 are
distinct, but a 1-byte fingerprint forces hash collisions, and under a
spec-consistent hashing scheme in which they share the fingerprint/index
triple, inserting key 1 silently overwrites key 0's value: key 0 was never
deleted and no eviction chain ever failed (both insertions return `Ok` and
drop nothing), yet `get` on key 0 no longer returns the last value stored
for key 0 (10), returning 20 instead. -/
theorem C1_counterexample :
    (((CuckooMap.with_capacity 1).insert (fun fp => fp.data)
        ((fun key => if key = 0 then (⟨⟨5⟩, 0, 0⟩ : FaI) else ⟨⟨5⟩, 0, 0⟩) 0) 10 false).ok = true)
    ∧ ((((CuckooMap.with_capacity 1).insert (fun fp => fp.data)
        ((fun key => if key = 0 then (⟨⟨5⟩, 0, 0⟩ : FaI) else ⟨⟨5⟩, 0, 0⟩) 0) 10 false).map.insert
          (fun fp => fp.data)
          ((fun key => if key = 0 then (⟨⟨5⟩, 0, 0⟩ : FaI) else ⟨⟨5⟩, 0, 0⟩) 1) 20 false).ok = true)
    ∧ ((((CuckooMap.with_capacity 1).insert (fun fp => fp.data)
        ((fun key => if key = 0 then (⟨⟨5⟩, 0, 0⟩ : FaI) else ⟨⟨5⟩, 0, 0⟩) 0) 10 false).map.insert
          (fun fp => fp.data)
          ((fun key => if key = 0 then (⟨⟨5⟩, 0, 0⟩ : FaI) else ⟨⟨5⟩, 0, 0⟩) 1) 20 false).dropped = none)
    ∧ ((((CuckooMap.with_capacity 1).insert (fun fp => fp.data)
        ((fun key => if key = 0 then (⟨⟨5⟩, 0, 0⟩ : FaI) else ⟨⟨5⟩, 0, 0⟩) 0) 10 false).map.insert
          (fun fp => fp.data)
          ((fun key => if key = 0 then (⟨⟨5⟩, 0, 0⟩ : FaI) else ⟨⟨5⟩, 0, 0⟩) 1) 20 false).map.get
          ((fun key => if key = 0 then (⟨⟨5⟩, 0, 0⟩ : FaI) else ⟨⟨5⟩, 0, 0⟩) 0) = some 20)
    ∧ some 20 ≠ some 10 := by
  refine ⟨by decide, by decide, by decide, by decide, by decide⟩

/-! Occupancy accounting: the counter `len` dominates the true number of
non-empty buckets, and operations never empty a slot silently. -/

/-- The Bool test of `density`: the bucket is occupied. -/
def occB (b : Bucket) : Bool :=
  !b.fingerprint.is_empty

theorem occB_iff (b : Bucket) : occB b = true ↔ b.fingerprint ≠ Fingerprint.empty := by
  unfold occB
  rw [Bool.not_eq_true']
  exact Fingerprint.is_empty_eq_false_iff _

theorem occB_eq_false_iff (b : Bucket) : occB b = false ↔ b.fingerprint = Fingerprint.empty := by
  unfold occB
  cases hb : b.fingerprint.is_empty
  · simp only [Bool.not_false]
    rw [Fingerprint.is_empty_eq_false_iff] at hb
    simp [hb]
  · simp only [Bool.not_true]
    rw [Fingerprint.is_empty_iff] at hb
    simp [hb]

theorem occupied_eq_countP (m : CuckooMap) :
    m.occupied = m.buckets.countP occB :=
  (List.countP_eq_length_filter _ _).symm

theorem put_occ (m : CuckooMap) (i : Nat) (fp : Fingerprint) (v : Value)
    (hfp : fp ≠ Fingerprint.empty) (hok : (m.put i fp v).2 = true) :
    ((m.put i fp v).1).buckets.countP occB ≤ m.buckets.countP occB + 1
    ∧ ((m.put i fp v).1).len = m.len + 1
    ∧ (∀ s, (m.buckets.getD s Bucket.new).fingerprint ≠ Fingerprint.empty →
        (((m.put i fp v).1).buckets.getD s Bucket.new).fingerprint ≠ Fingerprint.empty) := by
  by_cases hc : (m.buckets.getD (i % m.buckets.length) Bucket.new).fingerprint = Fingerprint.empty
      ∨ (m.buckets.getD (i % m.buckets.length) Bucket.new).fingerprint = fp
  · rw [CuckooMap.put_pos m i fp v hc]
    refine ⟨countP_set_le _ _ _ _, rfl, ?_⟩
    intro s hs
    by_cases hlt : i % m.buckets.length < m.buckets.length
    · by_cases hst : s = i % m.buckets.length
      · rw [hst, getD_set_self _ _ _ _ hlt]
        exact hfp
      · rw [getD_set_ne _ _ _ _ _ (fun hh => hst hh.symm)]
        exact hs
    · rw [List.set_eq_of_length_le (Nat.le_of_not_lt hlt)]
      exact hs
  · push_neg at hc
    rw [CuckooMap.put_neg m i fp v hc.1 hc.2] at hok
    simp at hok

theorem chain_occ (hash : Fingerprint → Nat) :
    ∀ (fuel : Nat) (m : CuckooMap) (cur : Bucket) (i : Nat),
      cur.fingerprint ≠ Fingerprint.empty →
      (m.buckets.getD (i % m.buckets.length) Bucket.new).fingerprint ≠ Fingerprint.empty →
      (∀ s, (m.buckets.getD s Bucket.new).fingerprint ≠ Fingerprint.empty →
        (((CuckooMap.chain hash fuel m cur i).map).buckets.getD s Bucket.new).fingerprint
          ≠ Fingerprint.empty) ∧
      (m.buckets.countP occB ≤ m.len →
        ((CuckooMap.chain hash fuel m cur i).map).buckets.countP occB
          ≤ ((CuckooMap.chain hash fuel m cur i).map).len)
  | 0, m, cur, i => by
      intro _ _
      constructor
      · intro s hs
        simpa [CuckooMap.chain] using hs
      · intro hle
        simpa [CuckooMap.chain] using hle
  | fuel + 1, m, cur, i => by
      intro hcur htgt
      have htlt : i % m.buckets.length < m.buckets.length :=
        getD_lt_of_fp m.buckets (i % m.buckets.length) _ htgt rfl
      -- facts about the raw write
      have hsets : ∀ s, (m.buckets.getD s Bucket.new).fingerprint ≠ Fingerprint.empty →
          ((m.buckets.set (i % m.buckets.length) cur).getD s Bucket.new).fingerprint
            ≠ Fingerprint.empty := by
        intro s hs
        by_cases hst : s = i % m.buckets.length
        · rw [hst, getD_set_self _ _ _ _ htlt]
          exact hcur
        · rw [getD_set_ne _ _ _ _ _ (fun hh => hst hh.symm)]
          exact hs
      have hsetc : (m.buckets.set (i % m.buckets.length) cur).countP occB
          = m.buckets.countP occB := by
        apply countP_set_same occB Bucket.new _ _ _ htlt
        rw [(occB_iff cur).mpr hcur, (occB_iff _).mpr htgt]
      unfold CuckooMap.chain
      dsimp only
      split
      · next hok =>
          have hput := put_occ _ _ _ _ htgt hok
          constructor
          · intro s hs
            exact hput.2.2 s (hsets s hs)
          · intro hle
            dsimp only
            calc _ ≤ (m.buckets.set (i % m.buckets.length) cur).countP occB + 1 := hput.1
              _ = m.buckets.countP occB + 1 := by rw [hsetc]
              _ ≤ m.len + 1 := by omega
              _ = _ := hput.2.1.symm
      · next hfailc =>
          rw [Bool.not_eq_true] at hfailc
          have hst := CuckooMap.put_fail_state _ _ _ _ hfailc
          have hocc := CuckooMap.put_fail_occupied _ _ _ _ hfailc
          have ih := chain_occ hash fuel
            ({ buckets := m.buckets.set (i % m.buckets.length) cur, len := m.len } : CuckooMap)
            (m.buckets.getD (i % m.buckets.length) Bucket.new)
            (get_alt_index hash (m.buckets.getD (i % m.buckets.length) Bucket.new).fingerprint i)
            htgt hocc.1
          constructor
          · intro s hs
            dsimp only
            rw [hst]
            exact ih.1 s (hsets s hs)
          · intro hle
            dsimp only
            rw [hst]
            apply ih.2
            dsimp only
            rw [hsetc]
            exact hle

theorem not_is_empty_iff (f : Fingerprint) :
    (!f.is_empty) = true ↔ f ≠ Fingerprint.empty := by
  rw [Bool.not_eq_true']
  exact Fingerprint.is_empty_eq_false_iff f

theorem insert_occ (hash : Fingerprint → Nat) (m : CuckooMap) (f : FaI)
    (v : Value) (r : Bool) (hfp : f.fp ≠ Fingerprint.empty) :
    (∀ s, (m.buckets.getD s Bucket.new).fingerprint ≠ Fingerprint.empty →
      (((m.insert hash f v r).map).buckets.getD s Bucket.new).fingerprint
        ≠ Fingerprint.empty) ∧
    (m.buckets.countP occB ≤ m.len →
      ((m.insert hash f v r).map).buckets.countP occB
        ≤ ((m.insert hash f v r).map).len) := by
  unfold CuckooMap.insert
  dsimp only
  by_cases h1 : (m.put f.i1 f.fp v).2 = true
  · rw [if_pos h1]
    dsimp only
    have hput := put_occ m f.i1 f.fp v hfp h1
    refine ⟨hput.2.2, fun hle => ?_⟩
    rw [hput.2.1]
    omega
  · rw [if_neg h1]
    have h1f : (m.put f.i1 f.fp v).2 = false := by simpa using h1
    have h1occ := CuckooMap.put_fail_occupied m f.i1 f.fp v h1f
    rw [CuckooMap.put_fail_state m f.i1 f.fp v h1f]
    by_cases h2 : (m.put f.i2 f.fp v).2 = true
    · rw [if_pos h2]
      dsimp only
      have hput := put_occ m f.i2 f.fp v hfp h2
      refine ⟨hput.2.2, fun hle => ?_⟩
      rw [hput.2.1]
      omega
    · rw [if_neg h2]
      have h2f : (m.put f.i2 f.fp v).2 = false := by simpa using h2
      have h2occ := CuckooMap.put_fail_occupied m f.i2 f.fp v h2f
      rw [CuckooMap.put_fail_state m f.i2 f.fp v h2f]
      have htarget : (m.buckets.getD ((f.random_index r) % m.buckets.length)
          Bucket.new).fingerprint ≠ Fingerprint.empty := by
        cases r
        · simpa [FaI.random_index] using h1occ.1
        · simpa [FaI.random_index] using h2occ.1
      exact chain_occ hash MAX_REBUCKET m { fingerprint := f.fp, value := v }
        (f.random_index r) hfp htarget

theorem remove_occ (m : CuckooMap) (fp : Fingerprint) (i : Nat)
    (hfp : fp ≠ Fingerprint.empty)
    (hle : m.buckets.countP occB ≤ m.len) :
    ((m.remove fp i).1).buckets.countP occB ≤ ((m.remove fp i).1).len := by
  by_cases hc : (m.buckets.getD (i % m.buckets.length) Bucket.new).fingerprint = fp
  · rw [CuckooMap.remove_pos m fp i hc]
    have hlt : i % m.buckets.length < m.buckets.length :=
      getD_lt_of_fp _ _ fp hfp hc
    have hold : occB (m.buckets.getD (i % m.buckets.length) Bucket.new) = true :=
      (occB_iff _).mpr (by rw [hc]; exact hfp)
    have hnew : occB ({ fingerprint := Fingerprint.empty, value := (m.buckets.getD (i % m.buckets.length) Bucket.new).value } : Bucket) = false :=
      (occB_eq_false_iff _).mpr rfl
    have hdrop := countP_set_drop occB Bucket.new m.buckets (i % m.buckets.length)
      _ hlt hold hnew
    have hpos := countP_pos_of_getD occB Bucket.new m.buckets (i % m.buckets.length)
      hlt hold
    dsimp only
    omega
  · rw [CuckooMap.remove_neg m fp i hc]
    exact hle

theorem delete_occ (m : CuckooMap) (f : FaI) (hfp : f.fp ≠ Fingerprint.empty)
    (hle : m.buckets.countP occB ≤ m.len) :
    ((m.delete f).1).buckets.countP occB ≤ ((m.delete f).1).len := by
  unfold CuckooMap.delete
  dsimp only
  split
  · exact remove_occ m f.fp f.i1 hfp hle
  · exact remove_occ _ f.fp f.i2 hfp (remove_occ m f.fp f.i1 hfp hle)

theorem clear_occ (m : CuckooMap)
    (hle : m.buckets.countP occB ≤ m.len) :
    (m.clear).buckets.countP occB ≤ (m.clear).len := by
  unfold CuckooMap.clear
  split
  · exact hle
  · dsimp only
    have hz : (m.buckets.map Bucket.clear).countP occB = 0 := by
      rw [List.countP_eq_zero]
      intro x hx
      obtain ⟨y, _, rfl⟩ := List.mem_map.mp hx
      rw [(occB_eq_false_iff (Bucket.clear y)).mpr rfl]
      exact Bool.false_ne_true
    omega

theorem test_and_add_occ (hash : Fingerprint → Nat) (m : CuckooMap) (f : FaI)
    (v : Value) (r : Bool) (hfp : f.fp ≠ Fingerprint.empty)
    (hle : m.buckets.countP occB ≤ m.len) :
    ((m.test_and_add hash f v r).map).buckets.countP occB
      ≤ ((m.test_and_add hash f v r).map).len := by
  unfold CuckooMap.test_and_add
  dsimp only
  split
  · exact hle
  · exact (insert_occ hash m f v r hfp).2 hle

theorem applyOp_occ (hash : Fingerprint → Nat) (m : CuckooMap) (op : MapOp)
    (hfp : opFpReal op = true)
    (hle : m.buckets.countP occB ≤ m.len) :
    (applyOp hash m op).buckets.countP occB ≤ (applyOp hash m op).len := by
  cases op with
  | ins f v r =>
      exact (insert_occ hash m f v r
        ((not_is_empty_iff f.fp).mp (by simpa [opFpReal] using hfp))).2 hle
  | tad f v r =>
      exact test_and_add_occ hash m f v r
        ((not_is_empty_iff f.fp).mp (by simpa [opFpReal] using hfp)) hle
  | del f =>
      exact delete_occ m f
        ((not_is_empty_iff f.fp).mp (by simpa [opFpReal] using hfp)) hle
  | clr => exact clear_occ m hle

theorem runOps_occ (hash : Fingerprint → Nat) :
    ∀ (ops : List MapOp) (m : CuckooMap), opsFpReal ops = true →
      m.buckets.countP occB ≤ m.len →
      (runOps hash m ops).buckets.countP occB ≤ (runOps hash m ops).len
  | [], m => by
      intro _ hle
      exact hle
  | op :: ops, m => by
      intro hall hle
      unfold opsFpReal at hall
      rw [List.all_cons, Bool.and_eq_true] at hall
      unfold runOps
      exact runOps_occ hash ops (applyOp hash m op) hall.2
        (applyOp_occ hash m op hall.1 hle)

/-- C2 counterexample: the claimed equality `len == number of non-empty
buckets` is false.  Re-inserting an existing key goes through the counted
`put` path (`self.len += 1` on any successful `Bucket::insert`, including a
same-fingerprint overwrite), so after two insertions of one key into a
fresh capacity-1 map the counter is 2 while only one bucket is occupied. -/
theorem C2_counterexample :
    (((CuckooMap.with_capacity 1).insert (fun _ => 0) ⟨⟨5⟩, 0, 0⟩ 10 false).map.insert
        (fun _ => 0) ⟨⟨5⟩, 0, 0⟩ 20 false).map.len = 2
    ∧ (((CuckooMap.with_capacity 1).insert (fun _ => 0) ⟨⟨5⟩, 0, 0⟩ 10 false).map.insert
        (fun _ => 0) ⟨⟨5⟩, 0, 0⟩ 20 false).map.occupied = 1
    ∧ ¬ ((((CuckooMap.with_capacity 1).insert (fun _ => 0) ⟨⟨5⟩, 0, 0⟩ 10 false).map.insert
        (fun _ => 0) ⟨⟨5⟩, 0, 0⟩ 20 false).map.len
      = (((CuckooMap.with_capacity 1).insert (fun _ => 0) ⟨⟨5⟩, 0, 0⟩ 10 false).map.insert
        (fun _ => 0) ⟨⟨5⟩, 0, 0⟩ 20 false).map.occupied) := by
  refine ⟨by decide, by decide, by decide⟩

/-- C2 (amended): on every state reachable from `with_capacity` by public
operations whose keys carry non-sentinel fingerprints (as every really
hashed key does), the counter dominates the exact count of non-empty
buckets: `occupied ≤ len`.  Equality can fail (strictly `len > occupied`)
after a same-fingerprint overwrite such as re-inserting an existing key. -/
theorem C2_len_occupancy (hash : Fingerprint → Nat) (cap : Nat)
    (ops : List MapOp) (hfp : opsFpReal ops = true) :
    (runOps hash (CuckooMap.with_capacity cap) ops).occupied
      ≤ (runOps hash (CuckooMap.with_capacity cap) ops).len := by
  rw [occupied_eq_countP]
  apply runOps_occ hash ops _ hfp
  unfold CuckooMap.with_capacity
  dsimp only
  have hz : (List.replicate (max 1 (nextPowerOfTwo cap)) Bucket.new).countP occB = 0 := by
    rw [List.countP_eq_zero]
    intro x hx
    rw [List.eq_of_mem_replicate hx]
    rw [(occB_eq_false_iff Bucket.new).mpr rfl]
    exact Bool.false_ne_true
  omega

/-- C2 witness: a concrete three-operation run (insert, re-insert, delete)
on a capacity-2 map. -/
theorem C2_len_occupancy_witness :
    (runOps (fun _ => 0) (CuckooMap.with_capacity 2)
        [MapOp.ins ⟨⟨5⟩, 0, 0⟩ 7 false, MapOp.ins ⟨⟨5⟩, 0, 0⟩ 8 false,
         MapOp.del ⟨⟨6⟩, 1, 1⟩]).occupied
      ≤ (runOps (fun _ => 0) (CuckooMap.with_capacity 2)
        [MapOp.ins ⟨⟨5⟩, 0, 0⟩ 7 false, MapOp.ins ⟨⟨5⟩, 0, 0⟩ 8 false,
         MapOp.del ⟨⟨6⟩, 1, 1⟩]).len :=
  C2_len_occupancy (fun _ => 0) 2
    [MapOp.ins ⟨⟨5⟩, 0, 0⟩ 7 false, MapOp.ins ⟨⟨5⟩, 0, 0⟩ 8 false,
     MapOp.del ⟨⟨6⟩, 1, 1⟩] (by decide)

theorem KInvL_count (k : FaI) (v : Value) (hkfp : k.fp ≠ Fingerprint.empty)
    (l : List Bucket) (h : KInvL k v l) :
    l.countP (fun b => b.fingerprint == k.fp) = 1 := by
  obtain ⟨j, hc, hj, hu⟩ := h
  have hjlt : j < l.length := getD_lt_of_fp _ _ _ hkfp (by rw [hj])
  apply countP_eq_one_of_getD (fun b => b.fingerprint == k.fp) Bucket.new l j hjlt
  · rw [hj]
    simp
  · intro j' hj'
    have hne := hu j' hj'
    simpa using hne

theorem KInvL_overwrite (k : FaI) (v2 : Value) (l : List Bucket) (j : Nat)
    (hjlt : j < l.length)
    (hcand : j = k.i1 % l.length ∨ j = k.i2 % l.length)
    (hu : ∀ j', j' ≠ j → (l.getD j' Bucket.new).fingerprint ≠ k.fp) :
    KInvL k v2 (l.set j { fingerprint := k.fp, value := v2 }) := by
  refine ⟨j, by simpa using hcand, getD_set_self _ _ _ _ hjlt, ?_⟩
  intro j' hj'
  rw [getD_set_ne _ _ _ _ _ (fun hh => hj' hh.symm)]
  exact hu j' hj'

theorem insert_i1_occupied (hash : Fingerprint → Nat) (m : CuckooMap) (k : FaI)
    (v : Value) (r : Bool) (hkfp : k.fp ≠ Fingerprint.empty)
    (hn0 : 0 < m.buckets.length) :
    (((m.insert hash k v r).map).buckets.getD (k.i1 % m.buckets.length)
      Bucket.new).fingerprint ≠ Fingerprint.empty := by
  unfold CuckooMap.insert
  dsimp only
  by_cases h1 : (m.put k.i1 k.fp v).2 = true
  · rw [if_pos h1]
    dsimp only
    by_cases hc : (m.buckets.getD (k.i1 % m.buckets.length) Bucket.new).fingerprint = Fingerprint.empty
        ∨ (m.buckets.getD (k.i1 % m.buckets.length) Bucket.new).fingerprint = k.fp
    · rw [CuckooMap.put_pos m k.i1 k.fp v hc]
      dsimp only
      rw [getD_set_self _ _ _ _ (Nat.mod_lt _ hn0)]
      exact hkfp
    · push_neg at hc
      rw [CuckooMap.put_neg m k.i1 k.fp v hc.1 hc.2] at h1
      simp at h1
  · rw [if_neg h1]
    have h1f : (m.put k.i1 k.fp v).2 = false := by simpa using h1
    have h1occ := CuckooMap.put_fail_occupied m k.i1 k.fp v h1f
    rw [CuckooMap.put_fail_state m k.i1 k.fp v h1f]
    by_cases h2 : (m.put k.i2 k.fp v).2 = true
    · rw [if_pos h2]
      dsimp only
      exact (put_occ m k.i2 k.fp v hkfp h2).2.2 _ h1occ.1
    · rw [if_neg h2]
      have h2f : (m.put k.i2 k.fp v).2 = false := by simpa using h2
      have h2occ := CuckooMap.put_fail_occupied m k.i2 k.fp v h2f
      rw [CuckooMap.put_fail_state m k.i2 k.fp v h2f]
      have htarget : (m.buckets.getD ((k.random_index r) % m.buckets.length)
          Bucket.new).fingerprint ≠ Fingerprint.empty := by
        cases r
        · simpa [FaI.random_index] using h1occ.1
        · simpa [FaI.random_index] using h2occ.1
      exact (chain_occ hash MAX_REBUCKET m { fingerprint := k.fp, value := v }
        (k.random_index r) hkfp htarget).1 _ h1occ.1

theorem insert_existing (hash : Fingerprint → Nat) (m : CuckooMap) (k : FaI)
    (v1 v2 : Value) (r2 : Bool) (hkfp : k.fp ≠ Fingerprint.empty)
    (hK : KInvL k v1 m.buckets)
    (hI1 : (m.buckets.getD (k.i1 % m.buckets.length) Bucket.new).fingerprint
      ≠ Fingerprint.empty) :
    (m.insert hash k v2 r2).ok = true
    ∧ (m.insert hash k v2 r2).map.len = m.len + 1
    ∧ KInvL k v2 (m.insert hash k v2 r2).map.buckets := by
  obtain ⟨j, hc, hj, hu⟩ := hK
  have hjlt : j < m.buckets.length := getD_lt_of_fp _ _ _ hkfp (by rw [hj])
  have hn0 : 0 < m.buckets.length := Nat.lt_of_le_of_lt (Nat.zero_le j) hjlt
  unfold CuckooMap.insert
  dsimp only
  by_cases hcase : (m.buckets.getD (k.i1 % m.buckets.length) Bucket.new).fingerprint = k.fp
  · have hjeq : k.i1 % m.buckets.length = j := by
      by_contra hne
      exact hu _ hne hcase
    have hput : m.put k.i1 k.fp v2 =
        ({ buckets := m.buckets.set (k.i1 % m.buckets.length)
             { fingerprint := k.fp, value := v2 }, len := m.len + 1 }, true) :=
      CuckooMap.put_pos m k.i1 k.fp v2 (Or.inr hcase)
    have hc2 : (m.put k.i1 k.fp v2).2 = true := by rw [hput]
    rw [if_pos hc2]
    refine ⟨rfl, ?_, ?_⟩
    · rw [hput]
    · rw [hput]
      exact KInvL_overwrite k v2 m.buckets (k.i1 % m.buckets.length)
        (Nat.mod_lt _ hn0) (Or.inl rfl)
        (fun j' hj' => hu j' (by rw [hjeq] at hj'; exact hj'))
  · have hfail1 : m.put k.i1 k.fp v2 = (m, false) :=
      CuckooMap.put_neg m k.i1 k.fp v2 hI1 hcase
    have hc2 : ¬ (m.put k.i1 k.fp v2).2 = true := by
      rw [hfail1]
      simp
    rw [if_neg hc2, hfail1]
    dsimp only
    have hjne : k.i1 % m.buckets.length ≠ j := by
      intro he
      rw [he, hj] at hcase
      exact hcase rfl
    have hjeq2 : j = k.i2 % m.buckets.length := by
      rcases hc with h | h
      · exact absurd h.symm hjne
      · exact h
    have hcase2 : (m.buckets.getD (k.i2 % m.buckets.length) Bucket.new).fingerprint = k.fp := by
      rw [← hjeq2, hj]
    have hput : m.put k.i2 k.fp v2 =
        ({ buckets := m.buckets.set (k.i2 % m.buckets.length)
             { fingerprint := k.fp, value := v2 }, len := m.len + 1 }, true) :=
      CuckooMap.put_pos m k.i2 k.fp v2 (Or.inr hcase2)
    have hc3 : (m.put k.i2 k.fp v2).2 = true := by rw [hput]
    rw [if_pos hc3]
    refine ⟨rfl, ?_, ?_⟩
    · rw [hput]
    · rw [hput]
      exact KInvL_overwrite k v2 m.buckets (k.i2 % m.buckets.length)
        (Nat.mod_lt _ hn0) (Or.inr rfl)
        (fun j' hj' => hu j' (by rw [hjeq2]; exact hj'))

/-- C3 counterexample: the claimed "len() is the same before and after the
second insertion" is false.  `CuckooMap::put` increments `len` on every
successful `Bucket::insert`, including the same-fingerprint overwrite used
by a re-insertion, so the counter grows from 1 to 2. -/
theorem C3_counterexample :
    ((CuckooMap.with_capacity 1).insert (fun _ => 0) ⟨⟨5⟩, 0, 0⟩ 10 false).ok = true
    ∧ ((CuckooMap.with_capacity 1).insert (fun _ => 0) ⟨⟨5⟩, 0, 0⟩ 10 false).map.len = 1
    ∧ (((CuckooMap.with_capacity 1).insert (fun _ => 0) ⟨⟨5⟩, 0, 0⟩ 10 false).map.insert
        (fun _ => 0) ⟨⟨5⟩, 0, 0⟩ 20 false).ok = true
    ∧ (((CuckooMap.with_capacity 1).insert (fun _ => 0) ⟨⟨5⟩, 0, 0⟩ 10 false).map.insert
        (fun _ => 0) ⟨⟨5⟩, 0, 0⟩ 20 false).map.len = 2
    ∧ ¬ ((((CuckooMap.with_capacity 1).insert (fun _ => 0) ⟨⟨5⟩, 0, 0⟩ 10 false).map.insert
        (fun _ => 0) ⟨⟨5⟩, 0, 0⟩ 20 false).map.len
      = ((CuckooMap.with_capacity 1).insert (fun _ => 0) ⟨⟨5⟩, 0, 0⟩ 10 false).map.len) := by
  refine ⟨by decide, by decide, by decide, by decide, by decide⟩

/-- C3 (amended): re-inserting a key that was just inserted succeeds,
leaves exactly one occupied slot holding the key's fingerprint, and `get`
returns the second value — but `len` increases by one on the second
insertion (the counted `put` path fires on the same-fingerprint
overwrite), instead of staying unchanged as claimed. -/
theorem C3_reinsert (hash : Fingerprint → Nat) (m0 : CuckooMap) (k : FaI)
    (v1 v2 : Value) (r1 r2 : Bool)
    (hp2 : IsPow2 m0.buckets.length) (hwf : WFai hash k)
    (hno : NoFpL k.fp m0.buckets)
    (hok1 : (m0.insert hash k v1 r1).ok = true) :
    ((m0.insert hash k v1 r1).map.insert hash k v2 r2).ok = true
    ∧ ((m0.insert hash k v1 r1).map.insert hash k v2 r2).map.len
        = (m0.insert hash k v1 r1).map.len + 1
    ∧ ((m0.insert hash k v1 r1).map.insert hash k v2 r2).map.get k = some v2
    ∧ ((m0.insert hash k v1 r1).map.insert hash k v2 r2).map.buckets.countP
        (fun b => b.fingerprint == k.fp) = 1 := by
  have hn0 : 0 < m0.buckets.length := by
    obtain ⟨t, ht⟩ := hp2
    rw [ht]
    exact pow_pos (by decide) t
  have hK1 := insert_establish hash k v1 r1 hwf m0 hp2 hn0 hno hok1
  have hI1 : (((m0.insert hash k v1 r1).map).buckets.getD
      (k.i1 % ((m0.insert hash k v1 r1).map).buckets.length)
      Bucket.new).fingerprint ≠ Fingerprint.empty := by
    rw [CuckooMap.insert_length]
    exact insert_i1_occupied hash m0 k v1 r1 hwf.1 hn0
  have hmain := insert_existing hash (m0.insert hash k v1 r1).map k v1 v2 r2
    hwf.1 hK1 hI1
  refine ⟨hmain.1, hmain.2.1, ?_, ?_⟩
  · exact get_of_KInvL _ k v2 hwf.1 hmain.2.2
  · exact KInvL_count k v2 hwf.1 _ hmain.2.2

/-- C3 witness: concrete double insertion of one key into a fresh
capacity-1 map with values 3 then 9. -/
theorem C3_reinsert_witness :
    (((CuckooMap.with_capacity 1).insert (fun _ => 0) ⟨⟨5⟩, 0, 0⟩ 3 false).map.insert
        (fun _ => 0) ⟨⟨5⟩, 0, 0⟩ 9 true).ok = true
    ∧ (((CuckooMap.with_capacity 1).insert (fun _ => 0) ⟨⟨5⟩, 0, 0⟩ 3 false).map.insert
        (fun _ => 0) ⟨⟨5⟩, 0, 0⟩ 9 true).map.len
        = ((CuckooMap.with_capacity 1).insert (fun _ => 0) ⟨⟨5⟩, 0, 0⟩ 3 false).map.len + 1
    ∧ (((CuckooMap.with_capacity 1).insert (fun _ => 0) ⟨⟨5⟩, 0, 0⟩ 3 false).map.insert
        (fun _ => 0) ⟨⟨5⟩, 0, 0⟩ 9 true).map.get ⟨⟨5⟩, 0, 0⟩ = some 9
    ∧ (((CuckooMap.with_capacity 1).insert (fun _ => 0) ⟨⟨5⟩, 0, 0⟩ 3 false).map.insert
        (fun _ => 0) ⟨⟨5⟩, 0, 0⟩ 9 true).map.buckets.countP
        (fun b => b.fingerprint == (⟨⟨5⟩, 0, 0⟩ : FaI).fp) = 1 :=
  C3_reinsert (fun _ => 0) (CuckooMap.with_capacity 1) ⟨⟨5⟩, 0, 0⟩ 3 9 false true
    ⟨0, by decide⟩ ⟨by decide, by decide⟩ (NoFpL_with_capacity _ (by decide) 1)
    (by decide)

set_option maxRecDepth 100000 in
/-- C4: evaluation of the code at the failing input.  In a capacity-1 map
holding fingerprint 1, inserting fingerprint 2 exhausts the eviction chain
(every index reduces to slot 0 modulo the single bucket) and returns
`NotEnoughSpace` — but contrary to the claim (and to the source's own doc
comment on `insert`), the requested pair `(fp 2, 20)` is NOT present: it is
itself the last displaced entry and is dropped, while the unrelated
`(fp 1, 10)` survives. -/
theorem C4_failing_input :
    ((CuckooMap.with_capacity 1).insert (fun fp => fp.data) ⟨⟨1⟩, 0, 0⟩ 10 false).ok = true
    ∧ (((CuckooMap.with_capacity 1).insert (fun fp => fp.data) ⟨⟨1⟩, 0, 0⟩ 10 false).map.insert
        (fun fp => fp.data) ⟨⟨2⟩, 0, 0⟩ 20 true).ok = false
    ∧ (((CuckooMap.with_capacity 1).insert (fun fp => fp.data) ⟨⟨1⟩, 0, 0⟩ 10 false).map.insert
        (fun fp => fp.data) ⟨⟨2⟩, 0, 0⟩ 20 true).dropped
        = some { fingerprint := ⟨2⟩, value := 20 }
    ∧ (((CuckooMap.with_capacity 1).insert (fun fp => fp.data) ⟨⟨1⟩, 0, 0⟩ 10 false).map.insert
        (fun fp => fp.data) ⟨⟨2⟩, 0, 0⟩ 20 true).map.get ⟨⟨2⟩, 0, 0⟩ = none
    ∧ (((CuckooMap.with_capacity 1).insert (fun fp => fp.data) ⟨⟨1⟩, 0, 0⟩ 10 false).map.insert
        (fun fp => fp.data) ⟨⟨2⟩, 0, 0⟩ 20 true).map.get ⟨⟨1⟩, 0, 0⟩ = some 10 := by
  refine ⟨by decide, by decide, by decide, by decide, by decide⟩

theorem chain_steps_le (hash : Fingerprint → Nat) :
    ∀ (fuel : Nat) (m : CuckooMap) (cur : Bucket) (i : Nat),
      (CuckooMap.chain hash fuel m cur i).steps ≤ fuel
  | 0, _, _, _ => Nat.le_refl 0
  | fuel + 1, m, cur, i => by
      unfold CuckooMap.chain
      dsimp only
      split
      · exact Nat.succ_le_succ (Nat.zero_le fuel)
      · exact Nat.succ_le_succ (chain_steps_le hash fuel _ _ _)

/-- C5: `insert` terminates for every map state, key triple and value: the
eviction loop performs at most `MAX_REBUCKET` (500) displacement steps, and
the total function returns either `Ok` (`ok = true`) or `NotEnoughSpace`
(`ok = false`). -/
theorem C5_insert_terminates (hash : Fingerprint → Nat) (m : CuckooMap)
    (f : FaI) (v : Value) (r : Bool) :
    (m.insert hash f v r).steps ≤ MAX_REBUCKET
    ∧ ((m.insert hash f v r).ok = true ∨ (m.insert hash f v r).ok = false) := by
  constructor
  · unfold CuckooMap.insert
    dsimp only
    split
    · exact Nat.zero_le _
    · split
      · exact Nat.zero_le _
      · exact chain_steps_le hash MAX_REBUCKET _ _ _
  · cases hok : (m.insert hash f v r).ok
    · exact Or.inr rfl
    · exact Or.inl rfl

theorem nextPowAux_pow2 (n : Nat) :
    ∀ (fuel acc : Nat), (∃ t, acc = 2 ^ t) → ∃ t, nextPowAux n fuel acc = 2 ^ t
  | 0, acc, h => h
  | fuel + 1, acc, h => by
      unfold nextPowAux
      split
      · exact h
      · apply nextPowAux_pow2 n fuel (2 * acc)
        obtain ⟨t, rfl⟩ := h
        exact ⟨t + 1, by rw [pow_succ]; ring⟩

theorem nextPowAux_ge (n : Nat) :
    ∀ (fuel acc : Nat), n ≤ 2 ^ fuel * acc → n ≤ nextPowAux n fuel acc
  | 0, acc, h => by
      unfold nextPowAux
      simpa using h
  | fuel + 1, acc, h => by
      unfold nextPowAux
      split
      · next hle => exact hle
      · apply nextPowAux_ge n fuel (2 * acc)
        calc n ≤ 2 ^ (fuel + 1) * acc := h
          _ = 2 ^ fuel * (2 * acc) := by ring

theorem nextPowerOfTwo_pow2 (n : Nat) : ∃ t, nextPowerOfTwo n = 2 ^ t :=
  nextPowAux_pow2 n n 1 ⟨0, rfl⟩

theorem nextPowerOfTwo_ge (n : Nat) : n ≤ nextPowerOfTwo n := by
  apply nextPowAux_ge n n 1
  have := Nat.lt_two_pow n
  omega

/-- C6: `with_capacity n` builds a bucket array whose length is a power of
two, at least 1, and at least `n`; every bucket starts empty and the
counter starts at 0; and the array length never changes under any sequence
of public operations. -/
theorem C6_with_capacity (n : Nat) (hash : Fingerprint → Nat) (ops : List MapOp) :
    IsPow2 (CuckooMap.with_capacity n).buckets.length
    ∧ 1 ≤ (CuckooMap.with_capacity n).buckets.length
    ∧ n ≤ (CuckooMap.with_capacity n).buckets.length
    ∧ (∀ b ∈ (CuckooMap.with_capacity n).buckets, b = Bucket.new)
    ∧ (CuckooMap.with_capacity n).len = 0
    ∧ (runOps hash (CuckooMap.with_capacity n) ops).buckets.length
        = (CuckooMap.with_capacity n).buckets.length := by
  have hlen : (CuckooMap.with_capacity n).buckets.length
      = max 1 (nextPowerOfTwo n) := by
    unfold CuckooMap.with_capacity
    simp
  obtain ⟨t, ht⟩ := nextPowerOfTwo_pow2 n
  have hone : 1 ≤ nextPowerOfTwo n := by
    rw [ht]
    exact Nat.one_le_two_pow
  have hmax : max 1 (nextPowerOfTwo n) = nextPowerOfTwo n := Nat.max_eq_right hone
  refine ⟨⟨t, ?_⟩, ?_, ?_, ?_, rfl, runOps_length hash ops _⟩
  · rw [hlen, hmax, ht]
  · rw [hlen]
    exact Nat.le_max_left 1 _
  · rw [hlen, hmax]
    exact nextPowerOfTwo_ge n
  · intro b hb
    unfold CuckooMap.with_capacity at hb
    exact List.eq_of_mem_replicate hb

/-- C7: the alternate-index derivation is involutive: re-deriving from the
alternate index and the same (non-sentinel) fingerprint returns the
original index, `alt(alt(i, fp), fp) = i` (xor cancels itself). -/
theorem C7_alt_involutive (hash : Fingerprint → Nat) (fp : Fingerprint)
    (i : Nat) (hfp : fp ≠ Fingerprint.empty) :
    get_alt_index hash fp (get_alt_index hash fp i) = i := by
  unfold get_alt_index
  rw [Nat.xor_assoc, Nat.xor_self, Nat.xor_zero]

/-- C7 witness: concrete involution at index 3 with fingerprint 5. -/
theorem C7_alt_involutive_witness :
    (⟨5⟩ : Fingerprint) ≠ Fingerprint.empty
    ∧ get_alt_index (fun f => f.data) ⟨5⟩ (get_alt_index (fun f => f.data) ⟨5⟩ 3) = 3 :=
  ⟨by decide, C7_alt_involutive (fun f => f.data) ⟨5⟩ 3 (by decide)⟩

/-- C8: `test_and_add` returns `Ok(false)` and leaves the map (buckets and
counter) completely untouched when `get` already succeeds; otherwise it
behaves exactly as `insert`, reporting `Ok(true)` when the insert returns
`Ok` and `NotEnoughSpace` when it fails. -/
theorem C8_test_and_add (hash : Fingerprint → Nat) (m : CuckooMap) (f : FaI)
    (v : Value) (r : Bool) :
    ((m.get f).isSome = true →
      m.test_and_add hash f v r = { map := m, res := some false, dropped := none })
    ∧ ((m.get f) = none →
      (m.test_and_add hash f v r).map = (m.insert hash f v r).map
      ∧ ((m.insert hash f v r).ok = true → (m.test_and_add hash f v r).res = some true)
      ∧ ((m.insert hash f v r).ok = false → (m.test_and_add hash f v r).res = none)) := by
  constructor
  · intro hg
    unfold CuckooMap.test_and_add
    rw [if_pos hg]
  · intro hg
    have hg' : ¬ (m.get f).isSome = true := by
      rw [hg]
      simp
    unfold CuckooMap.test_and_add
    rw [if_neg hg']
    refine ⟨rfl, ?_, ?_⟩
    · intro hok
      simp [hok]
    · intro hok
      simp [hok]

/-- C8 witness: on a fresh map `test_and_add` delegates to `insert`. -/
theorem C8_test_and_add_witness :
    ((CuckooMap.with_capacity 1).test_and_add (fun _ => 0) ⟨⟨5⟩, 0, 0⟩ 7 false).map
      = ((CuckooMap.with_capacity 1).insert (fun _ => 0) ⟨⟨5⟩, 0, 0⟩ 7 false).map :=
  ((C8_test_and_add (fun _ => 0) (CuckooMap.with_capacity 1) ⟨⟨5⟩, 0, 0⟩ 7 false).2
    (by decide)).1

/-- C9: `Bucket::insert` (the operation `lib.rs` calls `set`) stores the
pair and returns true exactly when the bucket is empty or already holds the
same fingerprint; otherwise it returns false and leaves both stored fields
unchanged. -/
theorem C9_bucket_set (b : Bucket) (fp : Fingerprint) (v : Value) :
    ((b.fingerprint = Fingerprint.empty ∨ b.fingerprint = fp) →
      b.insert fp v = ({ fingerprint := fp, value := v }, true))
    ∧ ((b.fingerprint ≠ Fingerprint.empty ∧ b.fingerprint ≠ fp) →
      b.insert fp v = (b, false)) :=
  ⟨fun h => Bucket.insert_pos b fp v h, fun h => Bucket.insert_neg b fp v h.1 h.2⟩

/-- C9 witness: the empty bucket accepts fingerprint 5 with value 7. -/
theorem C9_bucket_set_witness :
    Bucket.new.insert ⟨5⟩ 7 = ({ fingerprint := ⟨5⟩, value := 7 }, true) :=
  (C9_bucket_set Bucket.new ⟨5⟩ 7).1 (Or.inl rfl)

/-- C10: the empty-slot sentinel is the single byte 100, not zero:
`from_data` fails exactly on 100 and succeeds on every other byte,
`empty()` yields the byte 100, and `is_empty` holds exactly for it. -/
theorem C10_sentinel (b : Nat) (hb : b < 256) :
    (Fingerprint.from_data b = none ↔ b = 100)
    ∧ (b ≠ 100 → Fingerprint.from_data b = some ⟨b⟩)
    ∧ Fingerprint.empty = ⟨100⟩
    ∧ (∀ f : Fingerprint, f.is_empty = true ↔ f.data = 100) := by
  refine ⟨?_, ?_, rfl, ?_⟩
  · unfold Fingerprint.from_data
    dsimp only
    by_cases h : b = 100
    · simp [h, Fingerprint.is_empty, EMPTY_FINGERPRINT]
    · simp [h, Fingerprint.is_empty, EMPTY_FINGERPRINT]
  · intro h
    unfold Fingerprint.from_data
    dsimp only
    simp [h, Fingerprint.is_empty, EMPTY_FINGERPRINT]
  · intro f
    simp [Fingerprint.is_empty, EMPTY_FINGERPRINT]

/-- C10 witness: byte 0 is representable (the sentinel is not zero) and
byte 100 is the sentinel. -/
theorem C10_sentinel_witness :
    (Fingerprint.from_data 0 = none ↔ (0 : Nat) = 100) :=
  (C10_sentinel 0 (by decide)).1
